import Mathlib

/-!
Verification of the static-analysis-to-graph pipeline of the repository
(`agents/indexer/parser.py`, `agents/indexer/tools.py`,
`agents/graph_query/queries.py`, `agents/graph_query/tools.py`,
`core/models.py`, `core/types.py`, `database/neo4j_client.py`).

The Python sources are shallowly embedded:
* `core/types.py` enums become Lean inductives with their `value` strings;
* the `ast` subset the parser consumes (`ClassDef`, `FunctionDef`,
  `AsyncFunctionDef`, `Import`, `ImportFrom`, plain positional arguments,
  `Name`/`Attribute`/`Call` expressions, string-constant expression
  statements) becomes the inductive `Stmt`/`PyExpr`; Python property
  dictionaries become ordered association lists with Python-dict
  insert/override semantics;
* `PythonASTParser` becomes pure functions returning the entity and
  relationship lists in exactly the order the Python appends them;
  `ast.walk`'s breadth-first traversal is reproduced by `walkTagged`,
  and the identity-based `node in tree.body` test of `_is_top_level`
  by the Boolean tag carried along the walk (each ast node object occurs
  at exactly one position of the walk, so the tag equals the result of
  the identity membership test);
* the Cypher statements produced by `IndexerTools.index_file` and run
  sequentially in one transaction by `execute_batch_write` become a
  small operational semantics on a `Graph` of labelled nodes and edges:
  `MERGE (e:L {name: $name}) SET e += {...}` matches by (label, name)
  and overwrites the given properties, `MATCH (s {name: $source}),
  (t {name: $target}) MERGE (s)-[r:T]->(t)` adds the edge for every
  pair of already-present endpoint nodes and adds nothing otherwise.
-/

namespace RepoGraph

/-- `core/types.py` `EntityType`. The `FILE` member exists in the enum but is
never produced by the parser. -/
inductive EntityType where
  | MODULE | CLASS | FUNCTION | METHOD | PARAMETER | DECORATOR | IMPORT | DOCSTRING | FILE
deriving DecidableEq, Repr

/-- `.value` of `core/types.py` `EntityType` (a `str` enum). -/
def EntityType.value : EntityType → String
  | .MODULE => "Module"
  | .CLASS => "Class"
  | .FUNCTION => "Function"
  | .METHOD => "Method"
  | .PARAMETER => "Parameter"
  | .DECORATOR => "Decorator"
  | .IMPORT => "Import"
  | .DOCSTRING => "Docstring"
  | .FILE => "File"

/-- `core/types.py` `RelationshipType`. -/
inductive RelationshipType where
  | CONTAINS | IMPORTS | INHERITS_FROM | CALLS | DECORATED_BY | HAS_PARAMETER | DOCUMENTED_BY | DEPENDS_ON
deriving DecidableEq, Repr

/-- `.value` of `core/types.py` `RelationshipType` (a `str` enum). -/
def RelationshipType.value : RelationshipType → String
  | .CONTAINS => "CONTAINS"
  | .IMPORTS => "IMPORTS"
  | .INHERITS_FROM => "INHERITS_FROM"
  | .CALLS => "CALLS"
  | .DECORATED_BY => "DECORATED_BY"
  | .HAS_PARAMETER => "HAS_PARAMETER"
  | .DOCUMENTED_BY => "DOCUMENTED_BY"
  | .DEPENDS_ON => "DEPENDS_ON"

/-- `core/types.py` `IndexJobStatus`. -/
inductive IndexJobStatus where
  | PENDING | IN_PROGRESS | COMPLETED | FAILED
deriving DecidableEq, Repr

/-- A Python value stored in an entity property dictionary: the parser stores
strings, booleans, integers (line numbers, positions), lists of strings
(imported names) and `None` (absent type annotations).  `None` is modelled as
an explicit `nullv` marker. -/
inductive PropValue where
  | str (s : String)
  | bool (b : Bool)
  | nat (n : Nat)
  | strList (l : List String)
  | nullv
deriving DecidableEq, Repr

/-- An ordered association list with Python-`dict` semantics: insertion order
is kept, assigning to an existing key overwrites the value in place. -/
abbrev PyDict := List (String × PropValue)

/-- Python dict assignment `d[k] = v`: overwrite in place if the key exists,
append otherwise. -/
def dictInsert (d : PyDict) (k : String) (v : PropValue) : PyDict :=
  if d.any (fun e => e.1 = k) then d.map (fun e => if e.1 = k then (k, v) else e)
  else d ++ [(k, v)]

/-- Python `{**base, **upd}`-style merge: fold the pairs of `upd` into `base`
by dict assignment. -/
def dictMerge (base : PyDict) (upd : PyDict) : PyDict :=
  upd.foldl (fun d kv => dictInsert d kv.1 kv.2) base

/-- `parser.py` `EntityInfo`: `entity_type`, `name` (the qualified id handed
to the constructor), `line_number` and the per-type `properties` dict. -/
structure EntityInfo where
  entity_type : EntityType
  name : String
  line_number : Nat
  properties : PyDict
deriving DecidableEq, Repr

/-- `EntityInfo.to_dict`:
`{"entity_type": ..., "name": self.name, "line_number": ..., **self.properties}`.
A `"name"` key inside `properties` (present for Class/Function/Method/
Parameter/Decorator, holding the bare local name) overwrites the qualified
`self.name` at its original dict position, exactly as in a Python dict
literal. -/
def EntityInfo.to_dict (e : EntityInfo) : PyDict :=
  dictMerge
    [("entity_type", .str e.entity_type.value),
     ("name", .str e.name),
     ("line_number", .nat e.line_number)]
    e.properties

/-- `parser.py` `RelationshipInfo`.  The parser constructs every relationship
without `properties` (the optional dict defaults to `{}`), so the always-empty
dict is not carried around. -/
structure RelationshipInfo where
  rel_type : RelationshipType
  source : String
  target : String
deriving DecidableEq, Repr

end RepoGraph

namespace RepoGraph

/-- Python `str.join`: `strJoin sep [p1, ..., pn] = p1 ++ sep ++ ... ++ pn`. -/
def strJoin (sep : String) : List String → String
  | [] => ""
  | p :: rest => rest.foldl (fun acc x => acc ++ sep ++ x) p

/-- The expression subset the parser inspects: `ast.Name`, `ast.Attribute`
(whose value, in this embedding, is again a renderable chain), `ast.Call`,
and a constructor for any other expression kind (for which
`_get_name_from_node` returns `None`). -/
inductive PyExpr where
  | name (id : String)
  | attribute (value : PyExpr) (attr : String)
  | call (func : PyExpr) (args : List PyExpr)
  | otherExpr

mutual

/-- `ast.unparse` restricted to the chains above (dotted names and calls).
`otherExpr` is rendered as an empty placeholder; the parser never reaches it
because `_get_name_from_node` returns `None` on it first. -/
def PyExpr.unparse : PyExpr → String
  | .name id => id
  | .attribute v a => v.unparse ++ "." ++ a
  | .call f args => f.unparse ++ "(" ++ strJoin ", " (PyExpr.unparseList args) ++ ")"
  | .otherExpr => ""

/-- `ast.unparse` of a comma-joined argument list (helper of the above). -/
def PyExpr.unparseList : List PyExpr → List String
  | [] => []
  | e :: r => e.unparse :: PyExpr.unparseList r

end

/-- `PythonASTParser._get_name_from_node`: `Name` gives its id, `Attribute`
is unparsed, `Call` recurses into the callee, anything else gives `None`. -/
def getNameFromNode : PyExpr → Option String
  | .name id => some id
  | .attribute v a => some (PyExpr.attribute v a).unparse
  | .call f _ => getNameFromNode f
  | .otherExpr => none

/-- `ast.arg`: argument name, optional `annotation` expression, line number. -/
structure PyArg where
  arg : String
  ann : Option PyExpr
  lineno : Nat

/-- `ast.alias` as used by the parser (only `alias.name` is read). -/
structure PyAlias where
  name : String

/-- The statement subset the parser dispatches on.  `exprStmt (some s)`
is an `ast.Expr` statement whose value is a string constant (a docstring
candidate); `exprStmt none` is any other expression statement.  `compound`
stands for the remaining statements that carry nested statement bodies
(`If`, `For`, `While`, `With`, `Try`, ...), through which `ast.walk`
descends; `otherStmt` covers leaf statements (`Return`, `Pass`, `Assign`,
...). -/
inductive Stmt where
  | classDef (name : String) (bases : List PyExpr) (body : List Stmt) (decorator_list : List PyExpr) (lineno : Nat)
  | functionDef (name : String) (args : List PyArg) (body : List Stmt) (decorator_list : List PyExpr) (lineno : Nat)
  | asyncFunctionDef (name : String) (args : List PyArg) (body : List Stmt) (decorator_list : List PyExpr) (lineno : Nat)
  | importStmt (names : List PyAlias) (lineno : Nat)
  | importFrom (module : Option String) (names : List PyAlias) (lineno : Nat)
  | exprStmt (strValue : Option String)
  | compound (body : List Stmt)
  | otherStmt

/-- Python whitespace for `str.lstrip()` (ASCII range). -/
def isPySpace (c : Char) : Bool :=
  c = ' ' || c = '\t' || c = '\n' || c = '\r' || c = '\x0b' || c = '\x0c'

/-- Python `str.split("\n")` on a character list; the empty string splits
into one empty line. -/
def splitOnNl : List Char → List (List Char)
  | [] => [[]]
  | c :: rest =>
    if c = '\n' then [] :: splitOnNl rest
    else
      match splitOnNl rest with
      | [] => [[c]]
      | l :: ls => (c :: l) :: ls

/-- `"\n".join` on character-list lines. -/
def joinLines : List (List Char) → List Char
  | [] => []
  | l :: rest => l ++ rest.flatMap (fun x => '\n' :: x)

/-- `str.expandtabs()` with tab size 8, tracking the current column. -/
def expandtabsAux : List Char → Nat → List Char
  | [], _ => []
  | c :: rest, col =>
    if c = '\t' then
      let pad := 8 - col % 8
      List.replicate pad ' ' ++ expandtabsAux rest (col + pad)
    else if c = '\n' || c = '\r' then c :: expandtabsAux rest 0
    else c :: expandtabsAux rest (col + 1)

/-- `inspect.cleandoc`, which `ast.get_docstring` applies to the raw
docstring: expand tabs, strip the first line, remove the common margin of
the later non-blank lines, and drop leading and trailing blank lines. -/
def cleandoc (doc : String) : String :=
  let lines := splitOnNl (expandtabsAux doc.toList 0)
  let margin : Option Nat := lines.tail.foldl
    (fun m (line : List Char) =>
      let content := (line.dropWhile isPySpace).length
      if content ≠ 0 then
        let indent := line.length - content
        match m with
        | none => some indent
        | some m0 => some (min m0 indent)
      else m)
    none
  let lines := match lines with
    | [] => []
    | first :: rest =>
      first.dropWhile isPySpace ::
        (match margin with
         | some mg => rest.map (fun (l : List Char) => l.drop mg)
         | none => rest)
  let lines := (lines.reverse.dropWhile List.isEmpty).reverse
  let lines := lines.dropWhile List.isEmpty
  String.mk (joinLines lines)

/-- `ast.get_docstring(node)`: the cleaned string constant heading the body,
if any. -/
def getDocstring (body : List Stmt) : Option String :=
  match body with
  | .exprStmt (some s) :: _ => some (cleandoc s)
  | _ => none

/-- `_add_parameter`: Parameter entity scoped under the function id plus the
HAS_PARAMETER edge.  `type_annotation` is `ast.unparse(arg.annotation)` when
an annotation is present and `None` otherwise. -/
def addParameter (parent : String) (a : PyArg) (position : Nat) :
    EntityInfo × RelationshipInfo :=
  let param_name := parent ++ ".param." ++ a.arg
  let type_ann : PropValue := match a.ann with
    | some e => .str e.unparse
    | none => .nullv
  (⟨.PARAMETER, param_name, a.lineno,
     [("name", .str a.arg), ("type_annotation", type_ann), ("position", .nat position)]⟩,
   ⟨.HAS_PARAMETER, parent, param_name⟩)

/-- `_add_decorator`: Decorator entity (line number 0) under
`<parent>.decorator.<name>` plus a DECORATED_BY edge whose target is the
bare decorator name. -/
def addDecorator (parent : String) (decorator_name : String) :
    EntityInfo × RelationshipInfo :=
  (⟨.DECORATOR, parent ++ ".decorator." ++ decorator_name, 0,
     [("name", .str decorator_name)]⟩,
   ⟨.DECORATED_BY, parent, decorator_name⟩)

/-- `_add_docstring`: Docstring entity under `<parent>.docstring` plus a
DOCUMENTED_BY edge whose target is that entity id. -/
def addDocstring (parent : String) (content : String) (line_number : Nat) :
    EntityInfo × RelationshipInfo :=
  (⟨.DOCSTRING, parent ++ ".docstring", line_number, [("content", .str content)]⟩,
   ⟨.DOCUMENTED_BY, parent, parent ++ ".docstring"⟩)

end RepoGraph

namespace RepoGraph

/-- `_parse_function`.  Arguments mirror the fields of the
`FunctionDef`/`AsyncFunctionDef` node plus the `is_method`/`parent_class`
parameters.  Returns the entities and relationships in the order the Python
code appends them: the Function/Method entity and its CONTAINS edge, then
parameters, then the non-marker decorators, then the docstring.  (When
`is_method` is true the caller always passes `parent_class`; the `"None"`
fallback reproduces the f-string rendering of a missing parent.) -/
def parseFunction (module_path fname : String) (args : List PyArg)
    (body : List Stmt) (decorator_list : List PyExpr) (lineno : Nat)
    (is_async is_method : Bool) (parent_class : Option String) :
    List EntityInfo × List RelationshipInfo :=
  let parentStr := match parent_class with
    | some p => p
    | none => "None"
  let full_name := if is_method then parentStr ++ "." ++ fname
    else module_path ++ "." ++ fname
  let docstring := (getDocstring body).getD ""
  let signature := fname ++ "(" ++ strJoin ", " (args.map (fun a => a.arg)) ++ ")"
  let is_static := is_method &&
    decorator_list.any (fun d => getNameFromNode d = some "staticmethod")
  let is_classmethod := is_method &&
    decorator_list.any (fun d => getNameFromNode d = some "classmethod")
  let properties : PyDict :=
    [("name", .str fname), ("module_path", .str module_path),
     ("docstring", .str docstring), ("is_async", .bool is_async),
     ("signature", .str signature)] ++
    (if is_method then
       [("is_static", .bool is_static), ("is_classmethod", .bool is_classmethod)]
     else [])
  let params := args.enum.map (fun p => addParameter full_name p.2 p.1)
  let decNames := decorator_list.filterMap (fun d =>
    match getNameFromNode d with
    | some n => if n ≠ "" && n ≠ "staticmethod" && n ≠ "classmethod" then some n else none
    | none => none)
  let decs := decNames.map (addDecorator full_name)
  let docBlock := if docstring ≠ "" then [addDocstring full_name docstring lineno] else []
  let parent := if is_method then parentStr else module_path
  (⟨(if is_method then .METHOD else .FUNCTION), full_name, lineno, properties⟩ ::
     params.map Prod.fst ++ decs.map Prod.fst ++ docBlock.map Prod.fst,
   ⟨.CONTAINS, parent, full_name⟩ ::
     params.map Prod.snd ++ decs.map Prod.snd ++ docBlock.map Prod.snd)

/-- `_parse_class`: the Class entity, a CONTAINS edge from the module, an
INHERITS_FROM edge for every named base that is not the `"ABC"` sentinel,
the class decorators, the methods found directly in the class body (via
`_parse_function` with `is_method=True`), and the class docstring. -/
def parseClass (module_path cname : String) (bases : List PyExpr)
    (body : List Stmt) (decorator_list : List PyExpr) (lineno : Nat) :
    List EntityInfo × List RelationshipInfo :=
  let class_name := module_path ++ "." ++ cname
  let docstring := (getDocstring body).getD ""
  let is_abstract := bases.any (fun d =>
    match d with
    | .name id => id = "ABC"
    | _ => false)
  let classEntity : EntityInfo :=
    ⟨.CLASS, class_name, lineno,
      [("name", .str cname), ("module_path", .str module_path),
       ("docstring", .str docstring), ("is_abstract", .bool is_abstract)]⟩
  let inherits := bases.filterMap (fun b =>
    match getNameFromNode b with
    | some n => if n ≠ "" && n ≠ "ABC" then some (RelationshipInfo.mk .INHERITS_FROM class_name n) else none
    | none => none)
  let decNames := decorator_list.filterMap (fun d =>
    match getNameFromNode d with
    | some n => if n ≠ "" then some n else none
    | none => none)
  let decs := decNames.map (addDecorator class_name)
  let methods := body.filterMap (fun s =>
    match s with
    | .functionDef n a b d ln => some (parseFunction module_path n a b d ln false true (some class_name))
    | .asyncFunctionDef n a b d ln => some (parseFunction module_path n a b d ln true true (some class_name))
    | _ => none)
  let docBlock := if docstring ≠ "" then [addDocstring class_name docstring lineno] else []
  (classEntity :: decs.map Prod.fst ++ methods.flatMap Prod.fst ++ docBlock.map Prod.fst,
   ⟨.CONTAINS, module_path, class_name⟩ ::
     inherits ++ decs.map Prod.snd ++ methods.flatMap Prod.snd ++ docBlock.map Prod.snd)

/-- `_parse_import` on an `ast.Import`: one Import entity and one IMPORTS
edge (from the module to the literal imported name) per alias. -/
def parseImportPlain (module_path : String) (names : List PyAlias) (lineno : Nat) :
    List EntityInfo × List RelationshipInfo :=
  (names.map (fun a =>
     ⟨.IMPORT, module_path ++ ".import." ++ a.name, lineno,
       [("module_name", .str a.name), ("imported_names", .strList [a.name]),
        ("is_from_import", .bool false)]⟩),
   names.map (fun a => ⟨.IMPORTS, module_path, a.name⟩))

/-- `_parse_import` on an `ast.ImportFrom`: `module = node.module or ""`;
one Import entity per statement, plus an IMPORTS edge to the source module
name only when that name is non-empty. -/
def parseImportFrom (module_path : String) (module? : Option String)
    (names : List PyAlias) (lineno : Nat) :
    List EntityInfo × List RelationshipInfo :=
  let module := module?.getD ""
  ([⟨.IMPORT, module_path ++ ".import." ++ module, lineno,
      [("module_name", .str module),
       ("imported_names", .strList (names.map (fun a => a.name))),
       ("is_from_import", .bool true)]⟩],
   if module ≠ "" then [⟨.IMPORTS, module_path, module⟩] else [])

end RepoGraph

namespace RepoGraph

mutual

/-- Size of a statement: one plus the size of its nested statement body.
Used as fuel for the breadth-first walk. -/
def stmtSize : Stmt → Nat
  | .classDef _ _ body _ _ => 1 + stmtListSize body
  | .functionDef _ _ body _ _ => 1 + stmtListSize body
  | .asyncFunctionDef _ _ body _ _ => 1 + stmtListSize body
  | .compound body => 1 + stmtListSize body
  | _ => 1

/-- Total size of a statement list. -/
def stmtListSize : List Stmt → Nat
  | [] => 0
  | s :: r => stmtSize s + stmtListSize r

end

/-- The nested statements of one statement, in the order `ast.iter_child_nodes`
reaches them (for the statement kinds of this subset, exactly the `body`
field; leaf statements have none). -/
def stmtChildren : Stmt → List Stmt
  | .classDef _ _ body _ _ => body
  | .functionDef _ _ body _ _ => body
  | .asyncFunctionDef _ _ body _ _ => body
  | .compound body => body
  | _ => []

/-- Fuel-indexed breadth-first traversal: a non-empty level is emitted in
full, then the concatenation of all children forms the next level, exactly
as `ast.walk`'s deque produces nodes in level order. -/
def walkRestFuel : Nat → List Stmt → List Stmt
  | _, [] => []
  | 0, _ :: _ => []
  | f + 1, s :: r => (s :: r) ++ walkRestFuel f ((s :: r).flatMap stmtChildren)

/-- Breadth-first traversal of the statement levels starting at `l`
(`stmtListSize l` steps of fuel always suffice). -/
def walkRest (l : List Stmt) : List Stmt :=
  walkRestFuel (stmtListSize l) l

/-- `ast.walk` order over all statements of a module body, each paired with
the result of `_is_top_level` (`node in tree.body` is an identity test in
Python, so it holds exactly for the level-one occurrences). -/
def walkTagged (body : List Stmt) : List (Stmt × Bool) :=
  body.map (fun s => (s, true)) ++
    (walkRest (body.flatMap stmtChildren)).map (fun s => (s, false))

/-- All statements in `ast.walk` order (the first components of
`walkTagged`). -/
def walkAll (body : List Stmt) : List Stmt :=
  body ++ walkRest (body.flatMap stmtChildren)

/-- One dispatch step of the `ast.walk` loop in `parse_file`: classes are
parsed wherever they occur, functions only when top level, imports always,
all other statements are ignored. -/
def dispatchStmt (module_path : String) (s : Stmt) (is_top : Bool) :
    List EntityInfo × List RelationshipInfo :=
  match s with
  | .classDef n bs b ds ln => parseClass module_path n bs b ds ln
  | .functionDef n a b d ln =>
    if is_top then parseFunction module_path n a b d ln false false none else ([], [])
  | .asyncFunctionDef n a b d ln =>
    if is_top then parseFunction module_path n a b d ln true false none else ([], [])
  | .importStmt ns ln => parseImportPlain module_path ns ln
  | .importFrom m ns ln => parseImportFrom module_path m ns ln
  | _ => ([], [])

/-- `PythonASTParser.parse_file` on an already-parsed module body: the
Module entity (with `path`, `file_path` and the module docstring), then the
entities and relationships produced by dispatching every node of the
breadth-first walk. -/
def parseFile (file_path module_path : String) (body : List Stmt) :
    List EntityInfo × List RelationshipInfo :=
  let module_docstring := (getDocstring body).getD ""
  let moduleEntity : EntityInfo :=
    ⟨.MODULE, module_path, 1,
      [("path", .str module_path), ("file_path", .str file_path),
       ("docstring", .str module_docstring)]⟩
  let results := (walkTagged body).map (fun p => dispatchStmt module_path p.1 p.2)
  (moduleEntity :: results.flatMap Prod.fst, results.flatMap Prod.snd)

end RepoGraph

namespace RepoGraph

/-- Python `dict.pop(k)`: the value at `k` (the keys popped by `index_file`
are always present) and the dictionary without that key. -/
def dictPop (d : PyDict) (k : String) : Option PropValue × PyDict :=
  ((d.find? (fun e => e.1 = k)).map Prod.snd, d.filter (fun e => e.1 ≠ k))

/-- The node-merge statement `index_file` emits for one entity:
`MERGE (e:{entity_type} {name: $name}) SET e += {props}` with
`entity_type` and `name` popped from `to_dict()` and `props` the remaining
pairs (`line_number` and the non-name properties). -/
structure NodeQuery where
  label : String
  name : PropValue
  props : PyDict
deriving DecidableEq, Repr

/-- Build the node-merge statement from an entity (`index_file`, entity
loop). -/
def mkNodeQuery (e : EntityInfo) : NodeQuery :=
  let d := e.to_dict
  let p1 := dictPop d "entity_type"
  let p2 := dictPop p1.2 "name"
  ⟨(match p1.1 with
    | some (.str s) => s
    | _ => ""),
   p2.1.getD .nullv, p2.2⟩

/-- The relationship-merge statement `index_file` emits for one
relationship: `MATCH (s {name: $source}), (t {name: $target})
MERGE (s)-[r:{rel_type}]->(t)`. -/
structure RelQuery where
  rel_type : String
  source : String
  target : String
deriving DecidableEq, Repr

/-- Build the relationship-merge statement from a relationship
(`index_file`, relationship loop). -/
def mkRelQuery (r : RelationshipInfo) : RelQuery :=
  ⟨r.rel_type.value, r.source, r.target⟩

/-- A node of the property graph: one label, the `name` property it was
merged on, and its remaining properties. -/
structure GraphNode where
  label : String
  name : PropValue
  props : PyDict
deriving DecidableEq, Repr

/-- A relationship of the property graph, identified (as `MERGE` does) by
its type and its two endpoint nodes. -/
structure GraphEdge where
  rel_type : String
  srcLabel : String
  srcName : PropValue
  tgtLabel : String
  tgtName : PropValue
deriving DecidableEq, Repr

/-- The property graph state. -/
structure Graph where
  nodes : List GraphNode
  edges : List GraphEdge
deriving DecidableEq, Repr

/-- Does a node match `MERGE (e:{label} {name: $name})`? -/
def nodeKeyMatch (q : NodeQuery) (n : GraphNode) : Bool :=
  n.label == q.label && n.name == q.name

/-- Semantics of `MERGE (e:L {name: $name}) SET e += {props}` on the node
set: update the properties of the matched node in place, or create the node
when no node carries that label and name. -/
def nodeStep (ns : List GraphNode) (q : NodeQuery) : List GraphNode :=
  if ns.any (nodeKeyMatch q) then
    ns.map (fun n => if nodeKeyMatch q n then { n with props := dictMerge n.props q.props } else n)
  else ns ++ [⟨q.label, q.name, dictMerge [] q.props⟩]

/-- The edge `MERGE (s)-[r:T]->(t)` would create between two matched
endpoint nodes. -/
def edgeOf (q : RelQuery) (s t : GraphNode) : GraphEdge :=
  ⟨q.rel_type, s.label, s.name, t.label, t.name⟩

/-- Merge one edge: create it unless the same edge already exists. -/
def addEdge (es : List GraphEdge) (e : GraphEdge) : List GraphEdge :=
  if e ∈ es then es else es ++ [e]

/-- All endpoint pairs matched by `MATCH (s {name: $source}),
(t {name: $target})`: the Cartesian product of the nodes carrying the source
name and the nodes carrying the target name (any label).  Empty whenever
either side has no matching node. -/
def relPairs (ns : List GraphNode) (q : RelQuery) : List (GraphNode × GraphNode) :=
  (ns.filter (fun n => n.name == PropValue.str q.source)).flatMap (fun s =>
    (ns.filter (fun n => n.name == PropValue.str q.target)).map (fun t => (s, t)))

/-- Semantics of the relationship-merge statement on the edge set: merge the
edge for every matched endpoint pair (no pair, no edge). -/
def relStep (ns : List GraphNode) (es : List GraphEdge) (q : RelQuery) : List GraphEdge :=
  (relPairs ns q).foldl (fun acc p => addEdge acc (edgeOf q p.1 p.2)) es

/-- One Cypher write statement of the batch. -/
inductive CypherWrite where
  | node (q : NodeQuery)
  | rel (q : RelQuery)
deriving DecidableEq, Repr

/-- Apply one write statement to the graph. -/
def applyWrite (g : Graph) : CypherWrite → Graph
  | .node q => ⟨nodeStep g.nodes q, g.edges⟩
  | .rel q => ⟨g.nodes, relStep g.nodes g.edges q⟩

/-- `Neo4jClient.execute_batch_write`: the statements run sequentially in
one transaction. -/
def executeBatchWrite (g : Graph) (qs : List CypherWrite) : Graph :=
  qs.foldl applyWrite g

/-- The batch `index_file` builds: all entity merges first, then all
relationship merges. -/
def indexFileQueries (entities : List EntityInfo)
    (relationships : List RelationshipInfo) : List CypherWrite :=
  entities.map (fun e => .node (mkNodeQuery e)) ++
    relationships.map (fun r => .rel (mkRelQuery r))

/-- `IndexerTools.index_file` on an already-parsed body: parse, build the
batch, execute it. -/
def indexFile (g : Graph) (file_path module_path : String) (body : List Stmt) : Graph :=
  let er := parseFile file_path module_path body
  executeBatchWrite g (indexFileQueries er.1 er.2)

/-- `core/models.py` `IndexingJob`, restricted to the fields the indexing
loop manipulates (`job_id` and the wall-clock timestamps carry no
verifiable content). -/
structure IndexingJob where
  status : IndexJobStatus
  files_processed : Nat
  total_files : Nat
  error : Option String
deriving DecidableEq, Repr

/-- The per-file loop of `IndexerTools.index_repository`, abstracted over
the per-file outcomes (`true` = `index_file` returned, `false` = it raised
and the loop logged and continued).  `files_processed` is assigned `i + 1`
on each success; after the loop the job is marked COMPLETED.  (A discovery
failure before the loop is the separate FAILED path and involves no file
outcomes.) -/
def index_repository (outcomes : List Bool) : IndexingJob :=
  ⟨.COMPLETED,
   outcomes.enum.foldl (fun acc p => if p.2 then p.1 + 1 else acc) 0,
   outcomes.length,
   none⟩

/-- The indices of the files the loop attempts: every file of the batch,
regardless of earlier failures. -/
def filesAttempted (outcomes : List Bool) : List Nat :=
  outcomes.enum.map Prod.fst

/-- Python `needle in hay` on strings: substring containment, i.e. the
character list of `needle` is an infix of the character list of `hay`. -/
def containsSub (needle hay : String) : Bool :=
  decide (needle.toList <:+: hay.toList)

/-- Python `str.upper()` (character-wise upper-casing; the queries under
validation are ASCII, where this agrees with Python). -/
def pyUpper (s : String) : String :=
  String.mk (s.toList.map Char.toUpper)

/-- `CypherQueryBuilder.validate_query`'s blacklist. -/
def dangerous_keywords : List String :=
  ["DELETE", "DETACH DELETE", "REMOVE", "SET", "CREATE CONSTRAINT", "DROP"]

/-- `CypherQueryBuilder.validate_query`: reject iff the upper-cased query
contains one of the blacklisted keywords. -/
def validate_query (query : String) : Bool :=
  let query_upper := pyUpper query
  dangerous_keywords.all (fun k => !(containsSub k query_upper))

/-- `GraphQueryTools.execute_query` over an abstract read-only backend
`db`: validate first and raise before any database call on failure, run the
read otherwise. -/
def execute_query {α : Type} (cypher_query : String) (db : String → α) :
    Except String α :=
  if validate_query cypher_query then .ok (db cypher_query)
  else .error "Query contains dangerous operations"

end RepoGraph

namespace RepoGraph

/-- The module body of the end-to-end example of §8 of the specification:
`class Foo(Base):` / `def bar(self, x):` / `"""doc"""` / `return x`. -/
def exampleBody : List Stmt :=
  [.classDef "Foo" [.name "Base"]
     [.functionDef "bar" [⟨"self", none, 2⟩, ⟨"x", none, 2⟩]
        [.exprStmt (some "doc"), .otherStmt] [] 2]
     [] 1]

/-- A module with two classes `A` (line 1) and `B` (line 3), each defining a
method `m`: two distinct logical constructs whose node-merge keys coincide. -/
def twoClassBody : List Stmt :=
  [.classDef "A" [] [.functionDef "m" [] [.otherStmt] [] 2] [] 1,
   .classDef "B" [] [.functionDef "m" [] [.otherStmt] [] 4] [] 3]

/-- A module importing the literal name `m.f.decorator.deco` and defining a
decorated top-level function `f`: the IMPORTS relationship target collides
textually with the Decorator entity id. -/
def decoratorCollisionBody : List Stmt :=
  [.importStmt [⟨"m.f.decorator.deco"⟩] 1,
   .functionDef "f" [] [.otherStmt] [.name "deco"] 2]

/-- C5: parsing `class Foo(Base): def bar(self, x): """doc""" return x`
under module path `"pkg.mod"` yields exactly the Module, Class (not
abstract), Method (not async), the two Parameters at positions 0 and 1 and
the Docstring entity, and exactly the relationships
CONTAINS(pkg.mod→pkg.mod.Foo), INHERITS_FROM(pkg.mod.Foo→"Base"),
CONTAINS(pkg.mod.Foo→pkg.mod.Foo.bar), the two HAS_PARAMETER edges and
DOCUMENTED_BY(pkg.mod.Foo.bar→pkg.mod.Foo.bar.docstring). -/
theorem end_to_end_extraction_example :
    parseFile "pkg/mod.py" "pkg.mod" exampleBody =
      ([⟨.MODULE, "pkg.mod", 1,
          [("path", .str "pkg.mod"), ("file_path", .str "pkg/mod.py"),
           ("docstring", .str "")]⟩,
        ⟨.CLASS, "pkg.mod.Foo", 1,
          [("name", .str "Foo"), ("module_path", .str "pkg.mod"),
           ("docstring", .str ""), ("is_abstract", .bool false)]⟩,
        ⟨.METHOD, "pkg.mod.Foo.bar", 2,
          [("name", .str "bar"), ("module_path", .str "pkg.mod"),
           ("docstring", .str "doc"), ("is_async", .bool false),
           ("signature", .str "bar(self, x)"), ("is_static", .bool false),
           ("is_classmethod", .bool false)]⟩,
        ⟨.PARAMETER, "pkg.mod.Foo.bar.param.self", 2,
          [("name", .str "self"), ("type_annotation", .nullv),
           ("position", .nat 0)]⟩,
        ⟨.PARAMETER, "pkg.mod.Foo.bar.param.x", 2,
          [("name", .str "x"), ("type_annotation", .nullv),
           ("position", .nat 1)]⟩,
        ⟨.DOCSTRING, "pkg.mod.Foo.bar.docstring", 2,
          [("content", .str "doc")]⟩],
       [⟨.CONTAINS, "pkg.mod", "pkg.mod.Foo"⟩,
        ⟨.INHERITS_FROM, "pkg.mod.Foo", "Base"⟩,
        ⟨.CONTAINS, "pkg.mod.Foo", "pkg.mod.Foo.bar"⟩,
        ⟨.HAS_PARAMETER, "pkg.mod.Foo.bar", "pkg.mod.Foo.bar.param.self"⟩,
        ⟨.HAS_PARAMETER, "pkg.mod.Foo.bar", "pkg.mod.Foo.bar.param.x"⟩,
        ⟨.DOCUMENTED_BY, "pkg.mod.Foo.bar", "pkg.mod.Foo.bar.docstring"⟩]) := by
  decide

/-- C1 (counterexample): extraction of the example file emits the
INHERITS_FROM relationship to the literal external name `"Base"`, yet after
`index_file` on an empty store the graph holds no edge at all — the
relationship merge `MATCH`es its endpoints instead of creating them, so
every relationship of this batch is silently dropped. -/
theorem inherits_edge_dropped_counterexample :
    (⟨.INHERITS_FROM, "pkg.mod.Foo", "Base"⟩ : RelationshipInfo) ∈
        (parseFile "pkg/mod.py" "pkg.mod" exampleBody).2 ∧
      (indexFile ⟨[], []⟩ "pkg/mod.py" "pkg.mod" exampleBody).edges = [] := by
  decide

/-- The key `MERGE (e:{label} {name: $name})` deduplicates on: the label and
the popped `name` parameter of the node-merge statement. -/
def mergeKey (e : EntityInfo) : String × PropValue :=
  ((mkNodeQuery e).label, (mkNodeQuery e).name)

/-- C2 (counterexample): the two methods `A.m` and `B.m` of `twoClassBody`
are distinct extracted entities, but `index_file` merges both under the same
key (label `Method`, bare name `"m"`, because the bare name in
`properties` overwrites the qualified id in `to_dict`), and the store ends
up with a single Method node. -/
theorem merge_key_collision_counterexample :
    (⟨.METHOD, "m2.A.m", 2,
       [("name", .str "m"), ("module_path", .str "m2"), ("docstring", .str ""),
        ("is_async", .bool false), ("signature", .str "m()"),
        ("is_static", .bool false), ("is_classmethod", .bool false)]⟩ : EntityInfo) ∈
        (parseFile "m2.py" "m2" twoClassBody).1 ∧
      (⟨.METHOD, "m2.B.m", 4,
         [("name", .str "m"), ("module_path", .str "m2"), ("docstring", .str ""),
          ("is_async", .bool false), ("signature", .str "m()"),
          ("is_static", .bool false), ("is_classmethod", .bool false)]⟩ : EntityInfo) ∈
        (parseFile "m2.py" "m2" twoClassBody).1 ∧
      (⟨.METHOD, "m2.A.m", 2,
         [("name", .str "m"), ("module_path", .str "m2"), ("docstring", .str ""),
          ("is_async", .bool false), ("signature", .str "m()"),
          ("is_static", .bool false), ("is_classmethod", .bool false)]⟩ : EntityInfo) ≠
        ⟨.METHOD, "m2.B.m", 4,
          [("name", .str "m"), ("module_path", .str "m2"), ("docstring", .str ""),
           ("is_async", .bool false), ("signature", .str "m()"),
           ("is_static", .bool false), ("is_classmethod", .bool false)]⟩ ∧
      mergeKey
          ⟨.METHOD, "m2.A.m", 2,
            [("name", .str "m"), ("module_path", .str "m2"), ("docstring", .str ""),
             ("is_async", .bool false), ("signature", .str "m()"),
             ("is_static", .bool false), ("is_classmethod", .bool false)]⟩ =
        mergeKey
          ⟨.METHOD, "m2.B.m", 4,
            [("name", .str "m"), ("module_path", .str "m2"), ("docstring", .str ""),
             ("is_async", .bool false), ("signature", .str "m()"),
             ("is_static", .bool false), ("is_classmethod", .bool false)]⟩ ∧
      ((indexFile ⟨[], []⟩ "m2.py" "m2" twoClassBody).nodes.filter
          (fun n => n.label == "Method")).length = 1 := by
  decide

/-- C3 (counterexample): in the 5-file run where exactly file 3 fails, the
job the coordinator reports is `{COMPLETED, files_processed = 5,
total_files = 5, error = none}` — `IndexingJob` carries no
succeeded/failed counters at all, and its only per-file counter reads 5
(it is assigned `i + 1` on each success), not the claimed 4. -/
theorem job_counters_counterexample :
    index_repository [true, true, false, true, true] =
        ⟨.COMPLETED, 5, 5, none⟩ ∧
      (index_repository [true, true, false, true, true]).files_processed ≠ 4 ∧
      filesAttempted [true, true, false, true, true] = [0, 1, 2, 3, 4] := by
  decide

/-- C9 (counterexample): in `decoratorCollisionBody` the Decorator entity
`m.f.decorator.deco` is the target of a relationship of the extraction
output — the IMPORTS edge for `import m.f.decorator.deco` carries exactly
that string — so the Decorator entity is not universally free of incoming
relationship references. -/
theorem decorator_endpoint_counterexample :
    (⟨.DECORATOR, "m.f.decorator.deco", 0, [("name", .str "deco")]⟩ : EntityInfo) ∈
        (parseFile "m.py" "m" decoratorCollisionBody).1 ∧
      (⟨.IMPORTS, "m", "m.f.decorator.deco"⟩ : RelationshipInfo) ∈
        (parseFile "m.py" "m" decoratorCollisionBody).2 := by
  decide

end RepoGraph

namespace RepoGraph

/-- C3 (amended): the coordinator attempts every discovered file regardless
of earlier per-file failures and always ends the job COMPLETED once
discovery succeeded; the job snapshot carries only `files_processed` and
`total_files` (no succeeded/failed counters), and in the 5-file run with
only file 3 failing it reads `files_processed = 5` because the counter is
assigned the 1-based index of each successfully processed file. -/
theorem fault_isolation_amended :
    (∀ outcomes : List Bool,
        (index_repository outcomes).status = .COMPLETED ∧
          (index_repository outcomes).total_files = outcomes.length ∧
          filesAttempted outcomes = List.range outcomes.length) ∧
      index_repository [true, true, false, true, true] = ⟨.COMPLETED, 5, 5, none⟩ := by
  refine ⟨fun outcomes => ⟨rfl, rfl, ?_⟩, by decide⟩
  simp [filesAttempted, List.enum_map_fst]

/-- C10: a from-style import without a source module (`from . import x`,
where `ast.ImportFrom.module` is `None`) still yields one Import entity with
`module_name = ""`, `is_from_import = true` and the imported symbol names,
but no IMPORTS relationship; in general the IMPORTS edge of a from-import
is emitted exactly when the source module name is non-empty. -/
theorem relative_import_no_imports_edge :
    ∀ (mp : String) (names : List PyAlias) (ln : Nat),
      parseImportFrom mp none names ln =
        ([⟨.IMPORT, mp ++ ".import.", ln,
            [("module_name", .str ""),
             ("imported_names", .strList (names.map (fun a => a.name))),
             ("is_from_import", .bool true)]⟩], []) ∧
        ∀ module? : Option String,
          (parseImportFrom mp module? names ln).2 ≠ [] ↔ module?.getD "" ≠ "" := by
  intro mp names ln
  constructor
  · simp [parseImportFrom, String.append_empty]
  · intro module?
    by_cases h : module?.getD "" = "" <;> simp [parseImportFrom, h]

/-- C9 (amended): the DECORATED_BY relationship `_add_decorator` emits
targets the bare decorator name, which is never the id
`<parent>.decorator.<name>` of the Decorator entity emitted alongside it
(the id is strictly longer); Docstring entities differ: the DOCUMENTED_BY
relationship targets the Docstring entity's own id.  (A relationship of
another kind can still hit a Decorator entity id by textual coincidence,
see the counterexample.) -/
theorem decorated_by_targets_bare_name :
    ∀ (parent decorator_name content : String) (ln : Nat),
      (addDecorator parent decorator_name).2.target = decorator_name ∧
        (addDecorator parent decorator_name).2.target ≠
          (addDecorator parent decorator_name).1.name ∧
        (addDocstring parent content ln).2.target =
          (addDocstring parent content ln).1.name := by
  intro parent decorator_name content ln
  refine ⟨rfl, ?_, rfl⟩
  intro h
  have hlen := congrArg String.length h
  simp only [addDecorator] at hlen
  rw [String.length_append, String.length_append] at hlen
  have : (".decorator." : String).length = 11 := rfl
  omega

end RepoGraph

namespace RepoGraph

/-- C6: `validate_query` returns `false` for every query whose upper-cased
text contains `"DELETE"` (hence for `"delete"` in any letter case), and
likewise for the other mutation keywords `REMOVE`, `SET`, `DROP` and
`CREATE CONSTRAINT`; it returns `true` for every query containing none of
them; and `execute_query` turns a rejected query into an error without
consulting the database (the result is the same for every backend `db`)
while an accepted query runs the read. -/
theorem free_form_query_safety :
    (∀ q : String, containsSub "DELETE" (pyUpper q) = true →
        validate_query q = false) ∧
      (∀ q : String,
          (containsSub "REMOVE" (pyUpper q) = true ∨
            containsSub "SET" (pyUpper q) = true ∨
            containsSub "DROP" (pyUpper q) = true ∨
            containsSub "CREATE CONSTRAINT" (pyUpper q) = true) →
          validate_query q = false) ∧
      (∀ q : String, containsSub "DELETE" (pyUpper q) = false →
          containsSub "REMOVE" (pyUpper q) = false →
          containsSub "SET" (pyUpper q) = false →
          containsSub "DROP" (pyUpper q) = false →
          containsSub "CREATE CONSTRAINT" (pyUpper q) = false →
          validate_query q = true) ∧
      (∀ (α : Type) (q : String) (db : String → α), validate_query q = false →
          execute_query q db = .error "Query contains dangerous operations") ∧
      (∀ (α : Type) (q : String) (db : String → α), validate_query q = true →
          execute_query q db = .ok (db q)) := by
  refine ⟨?_, ?_, ?_, ?_, ?_⟩
  · intro q h
    simp [validate_query, dangerous_keywords, h]
  · intro q h
    rcases h with h | h | h | h <;> simp [validate_query, dangerous_keywords, h]
  · intro q h1 h2 h3 h4 h5
    have hdd : containsSub "DETACH DELETE" (pyUpper q) = false := by
      cases hdd0 : containsSub "DETACH DELETE" (pyUpper q)
      · rfl
      · exfalso
        have hsub : ("DELETE".toList : List Char) <:+: "DETACH DELETE".toList := by decide
        have hdel : containsSub "DELETE" (pyUpper q) = true := by
          unfold containsSub at hdd0 ⊢
          exact decide_eq_true (hsub.trans (of_decide_eq_true hdd0))
        rw [h1] at hdel
        exact Bool.false_ne_true hdel
    simp [validate_query, dangerous_keywords, h1, h2, h3, h4, h5, hdd]
  · intro α q db h
    simp [execute_query, h]
  · intro α q db h
    simp [execute_query, h]

/-- C6 (witness): the free-form query `"MATCH (n) DeLeTe n"` is rejected
before execution while the read-only `"MATCH (n) RETURN n"` runs. -/
theorem free_form_query_safety_witness :
    execute_query "MATCH (n) DeLeTe n" (fun s => s) =
        .error "Query contains dangerous operations" ∧
      execute_query "MATCH (n) RETURN n" (fun s => s) = .ok "MATCH (n) RETURN n" := by
  constructor
  · exact free_form_query_safety.2.2.2.1 String "MATCH (n) DeLeTe n" (fun s => s)
      (free_form_query_safety.1 "MATCH (n) DeLeTe n" (by decide))
  · exact free_form_query_safety.2.2.2.2 String "MATCH (n) RETURN n" (fun s => s)
      (free_form_query_safety.2.2.1 "MATCH (n) RETURN n" (by decide) (by decide)
        (by decide) (by decide) (by decide))

end RepoGraph

namespace RepoGraph

/-- Merging an edge keeps every edge already present. -/
theorem mem_addEdge (es : List GraphEdge) (e x : GraphEdge) (h : x ∈ es) :
    x ∈ addEdge es e := by
  unfold addEdge
  split
  · exact h
  · exact List.mem_append_left _ h

/-- Merging an edge makes it present. -/
theorem self_mem_addEdge (es : List GraphEdge) (e : GraphEdge) : e ∈ addEdge es e := by
  unfold addEdge
  split
  · assumption
  · exact List.mem_append_right _ (List.mem_singleton.mpr rfl)

/-- Edges present before a fold of edge merges stay present. -/
theorem mem_foldl_addEdge_start {α : Type} (f : α → GraphEdge) (P : List α)
    (es : List GraphEdge) (x : GraphEdge) (h : x ∈ es) :
    x ∈ P.foldl (fun acc p => addEdge acc (f p)) es := by
  induction P generalizing es with
  | nil => exact h
  | cons p r ih => exact ih _ (mem_addEdge _ _ _ h)

/-- Every edge merged during a fold of edge merges is present afterwards. -/
theorem mem_foldl_addEdge_of_mem {α : Type} (f : α → GraphEdge) (P : List α)
    (es : List GraphEdge) (p : α) (hp : p ∈ P) :
    f p ∈ P.foldl (fun acc q => addEdge acc (f q)) es := by
  induction P generalizing es with
  | nil => cases hp
  | cons q r ih =>
    rcases List.mem_cons.mp hp with h | h
    · subst h
      simp only [List.foldl_cons]
      exact mem_foldl_addEdge_start _ _ _ _ (self_mem_addEdge _ _)
    · simp only [List.foldl_cons]
      exact ih _ h

/-- C1 (amended): the relationship merge of `index_file` requires both
endpoints to pre-exist.  When no node of the store carries the target name,
the statement leaves the graph unchanged — the relationship is silently
dropped; when matching source and target nodes are present, the edge is
merged between them. -/
theorem relationship_upsert_requires_endpoints :
    (∀ (g : Graph) (q : RelQuery),
        (∀ n ∈ g.nodes, n.name ≠ PropValue.str q.target) →
        applyWrite g (.rel q) = g) ∧
      (∀ (g : Graph) (q : RelQuery) (s t : GraphNode),
          s ∈ g.nodes → t ∈ g.nodes →
          s.name = PropValue.str q.source → t.name = PropValue.str q.target →
          edgeOf q s t ∈ (applyWrite g (.rel q)).edges) := by
  constructor
  · intro g q h
    cases g with
    | mk ns es =>
      have ht : ns.filter (fun n => n.name == PropValue.str q.target) = [] :=
        List.filter_eq_nil_iff.mpr (fun n hn => by simpa using h n hn)
      have hnil : ((ns.filter (fun n => n.name == PropValue.str q.source)).flatMap
          fun _ => ([] : List (GraphNode × GraphNode))) = [] := by simp
      simp only [applyWrite, relStep, relPairs, ht, List.map_nil, hnil, List.foldl_nil]
  · intro g q s t hs ht hsn htn
    have hpair : (s, t) ∈ relPairs g.nodes q := by
      simp only [relPairs, List.mem_flatMap, List.mem_map, List.mem_filter]
      exact ⟨s, ⟨hs, by simp [hsn]⟩, t, ⟨ht, by simp [htn]⟩, rfl⟩
    exact mem_foldl_addEdge_of_mem (fun p => edgeOf q p.1 p.2) _ g.edges (s, t) hpair

/-- C1 (witness): on an empty store a relationship to the absent name `"b"`
is dropped outright, while between two present nodes the CONTAINS edge is
merged. -/
theorem relationship_upsert_requires_endpoints_witness :
    applyWrite ⟨[], []⟩ (.rel ⟨"IMPORTS", "a", "b"⟩) = ⟨[], []⟩ ∧
      edgeOf ⟨"CONTAINS", "m", "m.C"⟩ ⟨"Module", .str "m", []⟩ ⟨"Class", .str "m.C", []⟩ ∈
        (applyWrite ⟨[⟨"Module", .str "m", []⟩, ⟨"Class", .str "m.C", []⟩], []⟩
          (.rel ⟨"CONTAINS", "m", "m.C"⟩)).edges := by
  constructor
  · exact relationship_upsert_requires_endpoints.1 ⟨[], []⟩ ⟨"IMPORTS", "a", "b"⟩
      (by intro n hn; cases hn)
  · exact relationship_upsert_requires_endpoints.2
      ⟨[⟨"Module", .str "m", []⟩, ⟨"Class", .str "m.C", []⟩], []⟩
      ⟨"CONTAINS", "m", "m.C"⟩ ⟨"Module", .str "m", []⟩ ⟨"Class", .str "m.C", []⟩
      (by simp) (by simp) rfl rfl

end RepoGraph

namespace RepoGraph

/-- Cancelling a common suffix of two string concatenations. -/
theorem string_append_cancel_right {a b c : String} (h : a ++ c = b ++ c) : a = b := by
  have h2 : a.data ++ c.data = b.data ++ c.data := by
    have := congrArg String.data h
    simpa using this
  exact String.ext (List.append_cancel_right h2)

/-- C2 (amended): the merge key of a Method entity ignores the parent
class: for any two parent classes the method entities produced by
`_parse_function` carry identical merge keys (label `Method`, bare method
name), while the entities themselves are distinct whenever the parents
differ (their qualified ids differ). -/
theorem merge_key_ignores_parent_class :
    ∀ (mp fname : String) (args : List PyArg) (body : List Stmt)
      (decs : List PyExpr) (ln : Nat) (is_async : Bool) (p1 p2 : String),
      ((parseFunction mp fname args body decs ln is_async true (some p1)).1.head?.map mergeKey =
          (parseFunction mp fname args body decs ln is_async true (some p2)).1.head?.map mergeKey) ∧
        (p1 ≠ p2 →
          (parseFunction mp fname args body decs ln is_async true (some p1)).1.head? ≠
            (parseFunction mp fname args body decs ln is_async true (some p2)).1.head?) := by
  intro mp fname args body decs ln is_async p1 p2
  constructor
  · rfl
  · intro hne heq
    have hname := congrArg (Option.map (fun e : EntityInfo => e.name)) heq
    have hname' : some (p1 ++ "." ++ fname) = some (p2 ++ "." ++ fname) := hname
    exact hne (string_append_cancel_right (string_append_cancel_right (Option.some.inj hname')))

/-- C2 (witness): instantiating the collision at two concrete classes
`m.A` and `m.B` with method name `"m"`. -/
theorem merge_key_ignores_parent_class_witness :
    ((parseFunction "m" "m" [] [.otherStmt] [] 2 false true (some "m.A")).1.head?.map mergeKey =
        (parseFunction "m" "m" [] [.otherStmt] [] 4 false true (some "m.B")).1.head?.map mergeKey) ∧
      (parseFunction "m" "m" [] [.otherStmt] [] 2 false true (some "m.A")).1.head? ≠
        (parseFunction "m" "m" [] [.otherStmt] [] 2 false true (some "m.B")).1.head? := by
  constructor
  · decide
  · exact (merge_key_ignores_parent_class "m" "m" [] [.otherStmt] [] 2 false "m.A" "m.B").2
      (by decide)

end RepoGraph


namespace RepoGraph

/-- Is a relationship an INHERITS_FROM edge? -/
def isInherits (r : RelationshipInfo) : Bool :=
  r.rel_type == RelationshipType.INHERITS_FROM

/-- Filtering a mapped relationship list by a predicate that is false on
every image gives the empty list. -/
theorem filter_map_rel_nil {α : Type} (p : RelationshipInfo → Bool)
    (f : α → RelationshipInfo) (l : List α) (h : ∀ a, p (f a) = false) :
    (l.map f).filter p = [] := by
  rw [List.filter_map]
  have : l.filter (p ∘ f) = [] :=
    List.filter_eq_nil_iff.mpr (fun a _ => by simp [h a])
  rw [this, List.map_nil]

/-- The HAS_PARAMETER edge of `_add_parameter` is not an INHERITS_FROM
edge. -/
@[simp]
theorem isInherits_addParameter (p : String) (a : PyArg) (i : Nat) :
    isInherits (addParameter p a i).2 = false := rfl

/-- The DECORATED_BY edge of `_add_decorator` is not an INHERITS_FROM
edge. -/
@[simp]
theorem isInherits_addDecorator (p n : String) :
    isInherits (addDecorator p n).2 = false := rfl

/-- The DOCUMENTED_BY edge of `_add_docstring` is not an INHERITS_FROM
edge. -/
@[simp]
theorem isInherits_addDocstring (p c : String) (ln : Nat) :
    isInherits (addDocstring p c ln).2 = false := rfl

/-- `_parse_function` emits no INHERITS_FROM relationship. -/
theorem parseFunction_no_inherits (mp fname : String) (args : List PyArg)
    (body : List Stmt) (decs : List PyExpr) (ln : Nat)
    (is_async is_method : Bool) (parent_class : Option String) :
    (parseFunction mp fname args body decs ln is_async is_method parent_class).2.filter
      isInherits = [] := by
  unfold parseFunction
  by_cases hc : (getDocstring body).getD "" = "" <;>
    simp [hc, List.filter_map, Function.comp, isInherits,
      addParameter, addDecorator, addDocstring]

end RepoGraph

namespace RepoGraph

/-- The INHERITS_FROM relationships of a parsed class are exactly those of
its named non-`"ABC"` bases, in base order: the class body (methods), the
decorators and the docstring contribute none. -/
theorem parseClass_inherits (mp cname : String) (bases : List PyExpr)
    (body : List Stmt) (decs : List PyExpr) (ln : Nat) :
    (parseClass mp cname bases body decs ln).2.filter isInherits =
      bases.filterMap (fun b =>
        match getNameFromNode b with
        | some n =>
          if n ≠ "" && n ≠ "ABC" then
            some (RelationshipInfo.mk .INHERITS_FROM (mp ++ "." ++ cname) n)
          else none
        | none => none) := by
  unfold parseClass
  have hmeth : ((body.filterMap (fun s =>
      match s with
      | .functionDef n a b d ln' =>
        some (parseFunction mp n a b d ln' false true (some (mp ++ "." ++ cname)))
      | .asyncFunctionDef n a b d ln' =>
        some (parseFunction mp n a b d ln' true true (some (mp ++ "." ++ cname)))
      | _ => none)).flatMap Prod.snd).filter isInherits = [] := by
    rw [List.filter_flatMap]
    apply List.flatMap_eq_nil_iff.mpr
    intro pr hpr
    rcases List.mem_filterMap.mp hpr with ⟨s, -, hs⟩
    split at hs
    · cases hs
      exact parseFunction_no_inherits mp _ _ _ _ _ false true _
    · cases hs
      exact parseFunction_no_inherits mp _ _ _ _ _ true true _
    · cases hs
  have hinh : (bases.filterMap (fun b =>
      match getNameFromNode b with
      | some n =>
        if n ≠ "" && n ≠ "ABC" then
          some (RelationshipInfo.mk .INHERITS_FROM (mp ++ "." ++ cname) n)
        else none
      | none => none)).filter isInherits =
      bases.filterMap (fun b =>
        match getNameFromNode b with
        | some n =>
          if n ≠ "" && n ≠ "ABC" then
            some (RelationshipInfo.mk .INHERITS_FROM (mp ++ "." ++ cname) n)
          else none
        | none => none) := by
    apply List.filter_eq_self.mpr
    intro r hr
    rcases List.mem_filterMap.mp hr with ⟨b, -, hb⟩
    split at hb
    · split at hb
      · cases hb
        rfl
      · cases hb
    · cases hb
  have hdecs : ∀ L : List String,
      ((L.map (addDecorator (mp ++ "." ++ cname))).map Prod.snd).filter isInherits = [] := by
    intro L
    simp [List.filter_map, Function.comp, isInherits, addDecorator]
  have hdoc : (((if (getDocstring body).getD "" ≠ "" then
      [addDocstring (mp ++ "." ++ cname) ((getDocstring body).getD "") ln]
      else []).map Prod.snd).filter isInherits) = [] := by
    split <;> simp [isInherits, addDocstring]
  have hcont : isInherits ⟨.CONTAINS, mp, mp ++ "." ++ cname⟩ = false := rfl
  simp only [List.filter_cons, List.filter_append, hinh, hmeth, hdecs, hdoc, hcont,
    Bool.false_eq_true, if_false, List.append_nil]

end RepoGraph

namespace RepoGraph

/-- C7: for every parsed class, (i) two named non-sentinel bases
`(Base1, Base2)` yield exactly two INHERITS_FROM relationships, one per
base, in order; (ii) a class whose only base is the abstract-base sentinel
name `ABC` yields zero INHERITS_FROM relationships and `is_abstract=true`;
(iii) a class none of whose bases is the plain name `ABC` has
`is_abstract=false`. -/
theorem inheritance_and_abstract_sentinel :
    ∀ (mp cname : String) (body : List Stmt) (decs : List PyExpr) (ln : Nat),
      (∀ b1 b2 : String, b1 ≠ "" → b1 ≠ "ABC" → b2 ≠ "" → b2 ≠ "ABC" →
        (parseClass mp cname [.name b1, .name b2] body decs ln).2.filter isInherits =
          [⟨.INHERITS_FROM, mp ++ "." ++ cname, b1⟩,
           ⟨.INHERITS_FROM, mp ++ "." ++ cname, b2⟩]) ∧
      ((parseClass mp cname [.name "ABC"] body decs ln).2.filter isInherits = [] ∧
        (parseClass mp cname [.name "ABC"] body decs ln).1.head?.map
          (fun e => e.properties.lookup "is_abstract") = some (some (.bool true))) ∧
      (∀ bases : List PyExpr, (∀ id : String, PyExpr.name id ∈ bases → id ≠ "ABC") →
        (parseClass mp cname bases body decs ln).1.head?.map
          (fun e => e.properties.lookup "is_abstract") = some (some (.bool false))) := by
  intro mp cname body decs ln
  refine ⟨?_, ⟨?_, ?_⟩, ?_⟩
  · intro b1 b2 h1 h1' h2 h2'
    rw [parseClass_inherits]
    simp [getNameFromNode, PyExpr.unparse, h1, h1', h2, h2']
  · rw [parseClass_inherits]
    simp [getNameFromNode, PyExpr.unparse]
  · simp only [parseClass, List.head?_cons, Option.map_some]
    simp [List.lookup]
  · intro bases h
    have hany : (bases.any fun d =>
        match d with
        | .name id => id = "ABC"
        | _ => false) = false := by
      apply List.any_eq_false.mpr
      intro b hb
      cases b
      case name id => simpa using h id hb
      all_goals simp
    simp only [parseClass, hany, List.head?_cons, Option.map_some]
    simp [List.lookup]

/-- C7 (witness): the three parts instantiated at concrete classes
`class C(A, B)`, `class C(ABC)` and `class C(X)` in module `m`. -/
theorem inheritance_and_abstract_sentinel_witness :
    (parseClass "m" "C" [.name "A", .name "B"] [] [] 1).2.filter isInherits =
        [⟨.INHERITS_FROM, "m.C", "A"⟩, ⟨.INHERITS_FROM, "m.C", "B"⟩] ∧
      (parseClass "m" "C" [.name "ABC"] [] [] 1).2.filter isInherits = [] ∧
      (parseClass "m" "C" [.name "ABC"] [] [] 1).1.head?.map
        (fun e => e.properties.lookup "is_abstract") = some (some (.bool true)) ∧
      (parseClass "m" "C" [.name "X"] [] [] 1).1.head?.map
        (fun e => e.properties.lookup "is_abstract") = some (some (.bool false)) := by
  refine ⟨?_, ?_, ?_, ?_⟩
  · exact (inheritance_and_abstract_sentinel "m" "C" [] [] 1).1 "A" "B"
      (by decide) (by decide) (by decide) (by decide)
  · exact (inheritance_and_abstract_sentinel "m" "C" [] [] 1).2.1.1
  · exact (inheritance_and_abstract_sentinel "m" "C" [] [] 1).2.1.2
  · refine (inheritance_and_abstract_sentinel "m" "C" [] [] 1).2.2 [.name "X"] ?_
    intro id hmem
    have h1 : PyExpr.name id = PyExpr.name "X" := List.mem_singleton.mp hmem
    have h2 : id = "X" := PyExpr.name.inj h1
    subst h2
    decide

end RepoGraph

namespace RepoGraph

/-- Is an entity a standalone Function entity? -/
def isFunctionEnt (e : EntityInfo) : Bool :=
  e.entity_type == EntityType.FUNCTION

/-- Is an entity a Method entity? -/
def isMethodEnt (e : EntityInfo) : Bool :=
  e.entity_type == EntityType.METHOD

/-- Flattening option results equals filtering them. -/
theorem flatMap_toList {α β : Type} (l : List α) (f : α → Option β) :
    l.flatMap (fun a => (f a).toList) = l.filterMap f := by
  induction l with
  | nil => rfl
  | cons a r ih =>
    cases h : f a <;> simp [List.flatMap_cons, h, ih, List.filterMap_cons]

/-- A top-level `_parse_function` call contributes exactly its head entity
to the Function entities. -/
theorem parseFunction_filter_function (mp fname : String) (args : List PyArg)
    (body : List Stmt) (decs : List PyExpr) (ln : Nat) (is_async : Bool)
    (pc : Option String) :
    (parseFunction mp fname args body decs ln is_async false pc).1.filter isFunctionEnt =
      (parseFunction mp fname args body decs ln is_async false pc).1.head?.toList := by
  unfold parseFunction
  by_cases hc : (getDocstring body).getD "" = "" <;>
    simp [hc, List.filter_map, Function.comp, isFunctionEnt,
      addParameter, addDecorator, addDocstring]

/-- A method `_parse_function` call contributes no Function entity. -/
theorem parseFunction_method_no_function (mp fname : String) (args : List PyArg)
    (body : List Stmt) (decs : List PyExpr) (ln : Nat) (is_async : Bool)
    (pc : Option String) :
    (parseFunction mp fname args body decs ln is_async true pc).1.filter isFunctionEnt = [] := by
  unfold parseFunction
  by_cases hc : (getDocstring body).getD "" = "" <;>
    simp [hc, List.filter_map, Function.comp, isFunctionEnt,
      addParameter, addDecorator, addDocstring]

/-- A method `_parse_function` call contributes exactly its head entity to
the Method entities. -/
theorem parseFunction_filter_method (mp fname : String) (args : List PyArg)
    (body : List Stmt) (decs : List PyExpr) (ln : Nat) (is_async : Bool)
    (pc : Option String) :
    (parseFunction mp fname args body decs ln is_async true pc).1.filter isMethodEnt =
      (parseFunction mp fname args body decs ln is_async true pc).1.head?.toList := by
  unfold parseFunction
  by_cases hc : (getDocstring body).getD "" = "" <;>
    simp [hc, List.filter_map, Function.comp, isMethodEnt,
      addParameter, addDecorator, addDocstring]

/-- A top-level `_parse_function` call contributes no Method entity. -/
theorem parseFunction_top_no_method (mp fname : String) (args : List PyArg)
    (body : List Stmt) (decs : List PyExpr) (ln : Nat) (is_async : Bool)
    (pc : Option String) :
    (parseFunction mp fname args body decs ln is_async false pc).1.filter isMethodEnt = [] := by
  unfold parseFunction
  by_cases hc : (getDocstring body).getD "" = "" <;>
    simp [hc, List.filter_map, Function.comp, isMethodEnt,
      addParameter, addDecorator, addDocstring]

end RepoGraph

namespace RepoGraph

/-- The methods of one class, as the option-valued selector used below:
for each `def`/`async def` directly in the class body, the head (Method)
entity of its `_parse_function` result. -/
def classMethodEnt (mp cname : String) (m : Stmt) : Option EntityInfo :=
  match m with
  | .functionDef n a b d ln =>
    (parseFunction mp n a b d ln false true (some (mp ++ "." ++ cname))).1.head?
  | .asyncFunctionDef n a b d ln =>
    (parseFunction mp n a b d ln true true (some (mp ++ "." ++ cname))).1.head?
  | _ => none

/-- `_parse_class` contributes no standalone Function entity. -/
theorem parseClass_no_function (mp cname : String) (bases : List PyExpr)
    (body : List Stmt) (decs : List PyExpr) (ln : Nat) :
    (parseClass mp cname bases body decs ln).1.filter isFunctionEnt = [] := by
  unfold parseClass
  have hmeth : ((body.filterMap (fun s =>
      match s with
      | .functionDef n a b d ln' =>
        some (parseFunction mp n a b d ln' false true (some (mp ++ "." ++ cname)))
      | .asyncFunctionDef n a b d ln' =>
        some (parseFunction mp n a b d ln' true true (some (mp ++ "." ++ cname)))
      | _ => none)).flatMap Prod.fst).filter isFunctionEnt = [] := by
    rw [List.filter_flatMap]
    apply List.flatMap_eq_nil_iff.mpr
    intro pr hpr
    rcases List.mem_filterMap.mp hpr with ⟨s, -, hs⟩
    split at hs
    · cases hs
      exact parseFunction_method_no_function mp _ _ _ _ _ false _
    · cases hs
      exact parseFunction_method_no_function mp _ _ _ _ _ true _
    · cases hs
  by_cases hc : (getDocstring body).getD "" = "" <;>
    simp [hc, hmeth, List.filter_cons, List.filter_append, List.filter_map,
      Function.comp, isFunctionEnt, addDecorator, addDocstring]

/-- The Method entities `_parse_class` contributes are exactly the head
entities of the `_parse_function` calls on the defs of its body, in
order. -/
theorem parseClass_filter_method (mp cname : String) (bases : List PyExpr)
    (body : List Stmt) (decs : List PyExpr) (ln : Nat) :
    (parseClass mp cname bases body decs ln).1.filter isMethodEnt =
      body.filterMap (classMethodEnt mp cname) := by
  unfold parseClass
  have hmeth : ((body.filterMap (fun s =>
      match s with
      | .functionDef n a b d ln' =>
        some (parseFunction mp n a b d ln' false true (some (mp ++ "." ++ cname)))
      | .asyncFunctionDef n a b d ln' =>
        some (parseFunction mp n a b d ln' true true (some (mp ++ "." ++ cname)))
      | _ => none)).flatMap Prod.fst).filter isMethodEnt =
      body.filterMap (classMethodEnt mp cname) := by
    rw [List.filter_flatMap]
    have hpt : ∀ pr ∈ (body.filterMap (fun s =>
        match s with
        | .functionDef n a b d ln' =>
          some (parseFunction mp n a b d ln' false true (some (mp ++ "." ++ cname)))
        | .asyncFunctionDef n a b d ln' =>
          some (parseFunction mp n a b d ln' true true (some (mp ++ "." ++ cname)))
        | _ => none)),
        pr.1.filter isMethodEnt = pr.1.head?.toList := by
      intro pr hpr
      rcases List.mem_filterMap.mp hpr with ⟨s, -, hs⟩
      split at hs
      · cases hs
        exact parseFunction_filter_method mp _ _ _ _ _ false _
      · cases hs
        exact parseFunction_filter_method mp _ _ _ _ _ true _
      · cases hs
    rw [List.flatMap_congr hpt, flatMap_toList, List.filterMap_filterMap]
    apply List.filterMap_congr
    intro m _
    cases m <;> rfl
  by_cases hc : (getDocstring body).getD "" = "" <;>
    simp [hc, hmeth, List.filter_cons, List.filter_append, List.filter_map,
      Function.comp, isMethodEnt, addDecorator, addDocstring]

end RepoGraph

namespace RepoGraph

/-- The head (Function) entity of a top-level def, `none` for any other
statement: the only source of standalone Function entities. -/
def topFunctionEnt (mp : String) (s : Stmt) : Option EntityInfo :=
  match s with
  | .functionDef n a b d ln => (parseFunction mp n a b d ln false false none).1.head?
  | .asyncFunctionDef n a b d ln => (parseFunction mp n a b d ln true false none).1.head?
  | _ => none

/-- The Method entities contributed by one statement: those of the defs in
its body when it is a class definition, none otherwise. -/
def classMethodsOf (mp : String) (s : Stmt) : List EntityInfo :=
  match s with
  | .classDef cn _ b _ _ => b.filterMap (classMethodEnt mp cn)
  | _ => []

/-- Filtering a mapped list by a predicate that is false on every image
gives the empty list. -/
theorem filter_map_nil {α β : Type} (p : β → Bool) (f : α → β) (l : List α)
    (h : ∀ a, p (f a) = false) : (l.map f).filter p = [] := by
  rw [List.filter_map]
  have : l.filter (p ∘ f) = [] :=
    List.filter_eq_nil_iff.mpr (fun a _ => by simp [h a])
  rw [this, List.map_nil]

/-- `_parse_import` contributes no Function and no Method entity (every
entity it emits carries the IMPORT type). -/
theorem parseImport_filter_nil (mp : String) (p : EntityInfo → Bool)
    (hp : ∀ (nm : String) (lnn : Nat) (props : PyDict),
      p ⟨.IMPORT, nm, lnn, props⟩ = false) :
    (∀ (names : List PyAlias) (ln : Nat),
        (parseImportPlain mp names ln).1.filter p = []) ∧
      (∀ (module? : Option String) (names : List PyAlias) (ln : Nat),
        (parseImportFrom mp module? names ln).1.filter p = []) := by
  constructor
  · intro names ln
    unfold parseImportPlain
    exact filter_map_nil p _ names (fun a => hp _ _ _)
  · intro module? names ln
    unfold parseImportFrom
    simp [hp]

/-- Dispatching a statement that is not at top level yields no Function
entity. -/
theorem dispatch_nontop_no_function (mp : String) (s : Stmt) :
    (dispatchStmt mp s false).1.filter isFunctionEnt = [] := by
  have himp := parseImport_filter_nil mp isFunctionEnt
    (fun nm lnn props => by simp [isFunctionEnt])
  cases s with
  | classDef n bs b ds ln => exact parseClass_no_function mp n bs b ds ln
  | functionDef n a b d ln => simp [dispatchStmt]
  | asyncFunctionDef n a b d ln => simp [dispatchStmt]
  | importStmt ns ln => exact himp.1 ns ln
  | importFrom m ns ln => exact himp.2 m ns ln
  | exprStmt v => rfl
  | compound b => rfl
  | otherStmt => rfl

/-- Dispatching any walked statement yields exactly the Method entities of
its class body (none unless it is a class definition). -/
theorem dispatch_filter_method (mp : String) (s : Stmt) (t : Bool) :
    (dispatchStmt mp s t).1.filter isMethodEnt = classMethodsOf mp s := by
  have himp := parseImport_filter_nil mp isMethodEnt
    (fun nm lnn props => by simp [isMethodEnt])
  cases s with
  | classDef n bs b ds ln => exact parseClass_filter_method mp n bs b ds ln
  | functionDef n a b d ln =>
    cases t
    · rfl
    · exact parseFunction_top_no_method mp n a b d ln false none
  | asyncFunctionDef n a b d ln =>
    cases t
    · rfl
    · exact parseFunction_top_no_method mp n a b d ln true none
  | importStmt ns ln => exact himp.1 ns ln
  | importFrom m ns ln => exact himp.2 m ns ln
  | exprStmt v => rfl
  | compound b => rfl
  | otherStmt => rfl

/-- Dispatching a top-level statement yields exactly the Function entity of
a top-level def and no Function entity otherwise. -/
theorem dispatch_top_filter_function (mp : String) (s : Stmt) :
    (dispatchStmt mp s true).1.filter isFunctionEnt = (topFunctionEnt mp s).toList := by
  have himp := parseImport_filter_nil mp isFunctionEnt
    (fun nm lnn props => by simp [isFunctionEnt])
  cases s with
  | classDef n bs b ds ln => exact parseClass_no_function mp n bs b ds ln
  | functionDef n a b d ln =>
    exact parseFunction_filter_function mp n a b d ln false none
  | asyncFunctionDef n a b d ln =>
    exact parseFunction_filter_function mp n a b d ln true none
  | importStmt ns ln => exact himp.1 ns ln
  | importFrom m ns ln => exact himp.2 m ns ln
  | exprStmt v => rfl
  | compound b => rfl
  | otherStmt => rfl

end RepoGraph

namespace RepoGraph

/-- The standalone Function entities of a parsed file are exactly the head
entities of the top-level defs, in order. -/
theorem parseFile_filter_function (fp mp : String) (body : List Stmt) :
    (parseFile fp mp body).1.filter isFunctionEnt = body.filterMap (topFunctionEnt mp) := by
  have h2 : ((walkRest (body.flatMap stmtChildren)).flatMap
      (fun s => (dispatchStmt mp s false).1.filter isFunctionEnt)) = [] :=
    List.flatMap_eq_nil_iff.mpr (fun s _ => dispatch_nontop_no_function mp s)
  have h1 : body.flatMap (fun s => (dispatchStmt mp s true).1.filter isFunctionEnt) =
      body.filterMap (topFunctionEnt mp) := by
    rw [List.flatMap_congr (fun s _ => dispatch_top_filter_function mp s), flatMap_toList]
  simp only [parseFile, walkTagged, List.filter_cons, List.flatMap_map,
    List.flatMap_append, List.filter_append]
  rw [List.filter_flatMap, List.filter_flatMap, h1, h2, List.append_nil]
  simp [isFunctionEnt]

/-- The Method entities of a parsed file are exactly, class by class in
`ast.walk` order, the head entities of the defs of each class body. -/
theorem parseFile_filter_method (fp mp : String) (body : List Stmt) :
    (parseFile fp mp body).1.filter isMethodEnt =
      (walkAll body).flatMap (classMethodsOf mp) := by
  have h1 : body.flatMap (fun s => (dispatchStmt mp s true).1.filter isMethodEnt) =
      body.flatMap (classMethodsOf mp) :=
    List.flatMap_congr (fun s _ => dispatch_filter_method mp s true)
  have h2 : ((walkRest (body.flatMap stmtChildren)).flatMap
      (fun s => (dispatchStmt mp s false).1.filter isMethodEnt)) =
      (walkRest (body.flatMap stmtChildren)).flatMap (classMethodsOf mp) :=
    List.flatMap_congr (fun s _ => dispatch_filter_method mp s false)
  have hres : (parseFile fp mp body).1.filter isMethodEnt =
      body.flatMap (classMethodsOf mp) ++
        (walkRest (body.flatMap stmtChildren)).flatMap (classMethodsOf mp) := by
    simp only [parseFile, walkTagged, List.filter_cons, List.flatMap_map,
      List.flatMap_append, List.filter_append]
    rw [List.filter_flatMap, List.filter_flatMap, h1, h2]
    simp [isMethodEnt]
  rw [hres, walkAll, List.flatMap_append]

end RepoGraph

namespace RepoGraph

/-- C8 (counterexample): not every extracted entity has a containing
parent: in the end-to-end example the Module entity (and likewise the
Parameter entity of `self`) is the target of no CONTAINS relationship. -/
theorem containing_parent_counterexample :
    (⟨.MODULE, "pkg.mod", 1,
       [("path", .str "pkg.mod"), ("file_path", .str "pkg/mod.py"),
        ("docstring", .str "")]⟩ : EntityInfo) ∈
        (parseFile "pkg/mod.py" "pkg.mod" exampleBody).1 ∧
      (parseFile "pkg/mod.py" "pkg.mod" exampleBody).2.filter
        (fun r => r.rel_type == RelationshipType.CONTAINS && r.target == "pkg.mod") = [] ∧
      (parseFile "pkg/mod.py" "pkg.mod" exampleBody).2.filter
        (fun r => r.rel_type == RelationshipType.CONTAINS &&
          r.target == "pkg.mod.Foo.bar.param.self") = [] := by
  decide

/-- C8 (amended): (i) the standalone Function entities of a parsed file are
exactly the entities of its top-level defs — a function defined inside a
class body is never emitted as a Function entity; (ii) the Method entities
are exactly, per walked class occurrence, the entities of the defs of that
class body — each such def is emitted exactly once, as a Method; (iii) each
def of a walked class body gets a CONTAINS relationship from its class id
to its method id.  (Not every entity has a containing parent: Module,
Parameter, Decorator, Import and Docstring entities receive no CONTAINS
edge, see the counterexample.) -/
theorem containment_exclusivity_amended :
    (∀ (fp mp : String) (body : List Stmt),
        (parseFile fp mp body).1.filter isFunctionEnt =
          body.filterMap (topFunctionEnt mp)) ∧
      (∀ (fp mp : String) (body : List Stmt),
        (parseFile fp mp body).1.filter isMethodEnt =
          (walkAll body).flatMap (classMethodsOf mp)) ∧
      (∀ (fp mp : String) (body : List Stmt) (cn : String) (bs : List PyExpr)
          (b : List Stmt) (ds : List PyExpr) (ln : Nat),
        Stmt.classDef cn bs b ds ln ∈ walkAll body →
        ∀ (n : String) (a : List PyArg) (b' : List Stmt) (d : List PyExpr) (ln' : Nat),
          (Stmt.functionDef n a b' d ln' ∈ b ∨ Stmt.asyncFunctionDef n a b' d ln' ∈ b) →
          (⟨.CONTAINS, mp ++ "." ++ cn, (mp ++ "." ++ cn) ++ "." ++ n⟩ : RelationshipInfo) ∈
            (parseFile fp mp body).2) := by
  refine ⟨parseFile_filter_function, parseFile_filter_method, ?_⟩
  intro fp mp body cn bs b ds ln hcls n a b' d ln' hdef
  have hpc : (⟨.CONTAINS, mp ++ "." ++ cn, (mp ++ "." ++ cn) ++ "." ++ n⟩ : RelationshipInfo) ∈
      (parseClass mp cn bs b ds ln).2 := by
    have hpm : ∃ pr ∈ (b.filterMap (fun s =>
        match s with
        | .functionDef n0 a0 b0 d0 ln0 =>
          some (parseFunction mp n0 a0 b0 d0 ln0 false true (some (mp ++ "." ++ cn)))
        | .asyncFunctionDef n0 a0 b0 d0 ln0 =>
          some (parseFunction mp n0 a0 b0 d0 ln0 true true (some (mp ++ "." ++ cn)))
        | _ => none)),
        (⟨.CONTAINS, mp ++ "." ++ cn, (mp ++ "." ++ cn) ++ "." ++ n⟩ : RelationshipInfo) ∈ pr.2 := by
      rcases hdef with hm | hm
      · refine ⟨parseFunction mp n a b' d ln' false true (some (mp ++ "." ++ cn)), ?_, ?_⟩
        · exact List.mem_filterMap.mpr ⟨Stmt.functionDef n a b' d ln', hm, rfl⟩
        · exact List.mem_cons_self _ _
      · refine ⟨parseFunction mp n a b' d ln' true true (some (mp ++ "." ++ cn)), ?_, ?_⟩
        · exact List.mem_filterMap.mpr ⟨Stmt.asyncFunctionDef n a b' d ln', hm, rfl⟩
        · exact List.mem_cons_self _ _
    rcases hpm with ⟨pr, hprmem, hrel⟩
    unfold parseClass
    refine List.mem_cons_of_mem _ ?_
    refine List.mem_append_left _ ?_
    refine List.mem_append_right _ ?_
    exact List.mem_flatMap.mpr ⟨pr, hprmem, hrel⟩
  have hwt : ∃ t : Bool, (Stmt.classDef cn bs b ds ln, t) ∈ walkTagged body := by
    rcases List.mem_append.mp hcls with hin | hin
    · exact ⟨true, List.mem_append_left _ (List.mem_map_of_mem _ hin)⟩
    · exact ⟨false, List.mem_append_right _ (List.mem_map_of_mem _ hin)⟩
  rcases hwt with ⟨t, hwt⟩
  show _ ∈ ((walkTagged body).map (fun p => dispatchStmt mp p.1 p.2)).flatMap Prod.snd
  refine List.mem_flatMap.mpr ⟨dispatchStmt mp (Stmt.classDef cn bs b ds ln) t, ?_, ?_⟩
  · exact List.mem_map_of_mem _ hwt
  · exact hpc

/-- C8 (witness): in the end-to-end example the class-body function `bar`
yields the CONTAINS relationship from `pkg.mod.Foo` to `pkg.mod.Foo.bar`. -/
theorem containment_exclusivity_amended_witness :
    (⟨.CONTAINS, "pkg.mod" ++ "." ++ "Foo", ("pkg.mod" ++ "." ++ "Foo") ++ "." ++ "bar"⟩ :
        RelationshipInfo) ∈ (parseFile "pkg/mod.py" "pkg.mod" exampleBody).2 := by
  refine containment_exclusivity_amended.2.2 "pkg/mod.py" "pkg.mod" exampleBody "Foo"
    [.name "Base"]
    [.functionDef "bar" [⟨"self", none, 2⟩, ⟨"x", none, 2⟩]
       [.exprStmt (some "doc"), .otherStmt] [] 2]
    [] 1 ?_ "bar" [⟨"self", none, 2⟩, ⟨"x", none, 2⟩]
    [.exprStmt (some "doc"), .otherStmt] [] 2 ?_
  · exact List.mem_append_left _ (List.mem_cons_self _ _)
  · exact Or.inl (List.mem_cons_self _ _)

end RepoGraph

namespace RepoGraph

/-- The value of the last assignment of key `k` in the pair sequence `D`
(`none` when `k` is never assigned). -/
def lastVal (D : PyDict) (k : String) : Option PropValue :=
  (D.reverse.find? (fun e => e.1 = k)).map Prod.snd

/-- `lastVal` on a sequence extended by one assignment. -/
theorem lastVal_append_single (D : PyDict) (k0 : String) (v0 : PropValue) (k : String) :
    lastVal (D ++ [(k0, v0)]) k = if k0 = k then some v0 else lastVal D k := by
  unfold lastVal
  rw [List.reverse_append]
  simp only [List.reverse_cons, List.reverse_nil, List.nil_append, List.cons_append,
    List.nil_append, List.find?]
  by_cases h : k0 = k <;> simp [h]

/-- A key is present after inserting it. -/
theorem dictInsert_self_key (d : PyDict) (k : String) (v : PropValue) :
    (dictInsert d k v).any (fun e => e.1 = k) = true := by
  unfold dictInsert
  split
  · rename_i h
    rcases List.any_eq_true.mp h with ⟨e, he, hek⟩
    apply List.any_eq_true.mpr
    refine ⟨if e.1 = k then (k, v) else e, List.mem_map_of_mem _ he, ?_⟩
    simp only [decide_eq_true_eq] at hek
    simp [hek]
  · apply List.any_eq_true.mpr
    exact ⟨(k, v), List.mem_append_right _ (List.mem_singleton.mpr rfl), by simp⟩

/-- Key presence is preserved by an insertion. -/
theorem dictInsert_pres_key (d : PyDict) (k v : _) (k' : String)
    (h : d.any (fun e => e.1 = k') = true) :
    (dictInsert d k v).any (fun e => e.1 = k') = true := by
  unfold dictInsert
  rcases List.any_eq_true.mp h with ⟨e, he, hek⟩
  simp only [decide_eq_true_eq] at hek
  split
  · apply List.any_eq_true.mpr
    refine ⟨if e.1 = k then (k, v) else e, List.mem_map_of_mem _ he, ?_⟩
    by_cases hkk : e.1 = k
    · rw [if_pos hkk]
      simp [← hkk, hek]
    · rw [if_neg hkk]
      simp [hek]
  · exact List.any_eq_true.mpr ⟨e, List.mem_append_left _ he, by simp [hek]⟩

/-- Key presence is preserved by a dict merge. -/
theorem dictMerge_pres_key (D : PyDict) (d : PyDict) (k : String)
    (h : d.any (fun e => e.1 = k) = true) :
    (dictMerge d D).any (fun e => e.1 = k) = true := by
  induction D generalizing d with
  | nil => exact h
  | cons p r ih => exact ih _ (dictInsert_pres_key _ _ _ _ h)

/-- Every key assigned in `D` is present after merging `D`. -/
theorem dictMerge_key_of_assigned (D : PyDict) (d : PyDict) (k : String)
    (h : ∃ p ∈ D, p.1 = k) :
    (dictMerge d D).any (fun e => e.1 = k) = true := by
  induction D generalizing d with
  | nil => rcases h with ⟨p, hp, -⟩; cases hp
  | cons p r ih =>
    rcases h with ⟨p', hp', hk⟩
    rcases List.mem_cons.mp hp' with rfl | hmem
    · exact dictMerge_pres_key r _ _ (hk ▸ dictInsert_self_key d p'.1 p'.2)
    · exact ih _ ⟨p', hmem, hk⟩

/-- After inserting `(k, v)`, every entry carrying key `k` holds `v`. -/
theorem dictInsert_entry_val (d : PyDict) (k : String) (v : PropValue)
    (e : String × PropValue) (he : e ∈ dictInsert d k v) (hk : e.1 = k) : e.2 = v := by
  unfold dictInsert at he
  split at he
  · rcases List.mem_map.mp he with ⟨x, -, hx⟩
    by_cases hxk : x.1 = k
    · rw [if_pos hxk] at hx
      rw [← hx]
    · rw [if_neg hxk] at hx
      rw [← hx] at hk
      exact absurd hk hxk
  · rename_i habs
    rcases List.mem_append.mp he with hin | hin
    · exfalso
      have : d.any (fun e => e.1 = k) = true :=
        List.any_eq_true.mpr ⟨e, hin, by simp [hk]⟩
      simp [this] at habs
    · rw [List.mem_singleton.mp hin]

/-- An entry whose key differs from the inserted one was already present. -/
theorem dictInsert_entry_other (d : PyDict) (k : String) (v : PropValue)
    (e : String × PropValue) (he : e ∈ dictInsert d k v) (hk : e.1 ≠ k) : e ∈ d := by
  unfold dictInsert at he
  split at he
  · rcases List.mem_map.mp he with ⟨x, hx, hxe⟩
    by_cases hxk : x.1 = k
    · rw [if_pos hxk] at hxe
      rw [← hxe] at hk
      exact absurd rfl hk
    · rw [if_neg hxk] at hxe
      exact hxe ▸ hx
  · rcases List.mem_append.mp he with hin | hin
    · exact hin
    · rw [List.mem_singleton.mp hin] at hk
      exact absurd rfl hk

end RepoGraph

namespace RepoGraph

/-- Splitting a merge at the last assignment. -/
theorem dictMerge_append_single (d D : PyDict) (k0 : String) (v0 : PropValue) :
    dictMerge d (D ++ [(k0, v0)]) = dictInsert (dictMerge d D) k0 v0 := by
  unfold dictMerge
  rw [List.foldl_append]
  rfl

/-- Splitting a merge of a concatenated sequence. -/
theorem dictMerge_append (d A B : PyDict) :
    dictMerge d (A ++ B) = dictMerge (dictMerge d A) B := by
  unfold dictMerge
  rw [List.foldl_append]

end RepoGraph

namespace RepoGraph

/-- After merging `D`, every entry whose key is assigned somewhere in `D`
holds the last assigned value. -/
theorem dictMerge_entry_last (D : PyDict) :
    ∀ (d : PyDict) (e : String × PropValue), e ∈ dictMerge d D →
      (∃ p ∈ D, p.1 = e.1) → some e.2 = lastVal D e.1 := by
  induction D using List.reverseRecOn with
  | nil =>
    intro d e he hex
    rcases hex with ⟨p, hp, -⟩
    cases hp
  | append_singleton D' p0 ih =>
    obtain ⟨k0, v0⟩ := p0
    intro d e he hex
    rw [dictMerge_append_single] at he
    rw [lastVal_append_single]
    by_cases hk : e.1 = k0
    · rw [if_pos hk.symm]
      rw [dictInsert_entry_val _ _ _ e he hk]
    · rw [if_neg (fun hh => hk hh.symm)]
      have he' := dictInsert_entry_other _ _ _ e he hk
      apply ih d e he'
      rcases hex with ⟨p, hp, hpk⟩
      rcases List.mem_append.mp hp with hin | hin
      · exact ⟨p, hin, hpk⟩
      · rw [List.mem_singleton.mp hin] at hpk
        exact absurd hpk.symm hk

end RepoGraph

namespace RepoGraph

/-- Rewrite one entry to the last value its key receives in `D` (identity
when the key is never assigned). -/
def updLast (D : PyDict) (e : String × PropValue) : String × PropValue :=
  match lastVal D e.1 with
  | some v => (e.1, v)
  | none => e

/-- `updLast` keeps the key. -/
theorem updLast_fst (D : PyDict) (e : String × PropValue) : (updLast D e).1 = e.1 := by
  unfold updLast
  split <;> rfl

/-- Merging a sequence whose keys are all already present only rewrites
values in place: the merge is the pointwise last-value update. -/
theorem dictMerge_update_only (D : PyDict) :
    ∀ d : PyDict, (∀ p ∈ D, d.any (fun e => e.1 = p.1) = true) →
      dictMerge d D = d.map (updLast D) := by
  induction D using List.reverseRecOn with
  | nil =>
    intro d _
    have h1 : ∀ e ∈ d, e = updLast [] e := fun e _ => rfl
    calc dictMerge d [] = d := rfl
    _ = d.map (updLast []) := by
        rw [show d.map (updLast []) = d.map (fun e => e) from
          (List.map_eq_map_iff.mpr (fun e he => (h1 e he).symm)), List.map_id']
  | append_singleton D' p0 ih =>
    obtain ⟨k0, v0⟩ := p0
    intro d h
    rw [dictMerge_append_single, ih d (fun p hp => h p (List.mem_append_left _ hp))]
    have hpres : (d.map (updLast D')).any (fun e => e.1 = k0) = true := by
      have h0 := h (k0, v0) (List.mem_append_right _ (List.mem_singleton.mpr rfl))
      rcases List.any_eq_true.mp h0 with ⟨e, he, hek⟩
      simp only [decide_eq_true_eq] at hek
      apply List.any_eq_true.mpr
      exact ⟨updLast D' e, List.mem_map_of_mem _ he, by simp [updLast_fst, hek]⟩
    unfold dictInsert
    rw [if_pos hpres, List.map_map]
    apply List.map_eq_map_iff.mpr
    intro e _
    simp only [Function.comp_apply]
    by_cases hk : e.1 = k0
    · rw [if_pos ((updLast_fst D' e).trans hk)]
      unfold updLast
      rw [lastVal_append_single, if_pos hk.symm, hk]
    · rw [if_neg (fun hh => hk ((updLast_fst D' e) ▸ hh))]
      unfold updLast
      rw [lastVal_append_single, if_neg (fun hh => hk hh.symm)]

/-- Replaying the same merged sequence is the identity: the core of
idempotent node persistence. -/
theorem dictMerge_idem (d D : PyDict) :
    dictMerge (dictMerge d D) D = dictMerge d D := by
  have hp : ∀ p ∈ D, (dictMerge d D).any (fun e => e.1 = p.1) = true :=
    fun p hp => dictMerge_key_of_assigned D d p.1 ⟨p, hp, rfl⟩
  rw [dictMerge_update_only D (dictMerge d D) hp]
  have hpt : ∀ e ∈ dictMerge d D, updLast D e = e := by
    intro e he
    unfold updLast
    cases hl : lastVal D e.1 with
    | none => rfl
    | some v =>
      have hex : ∃ p ∈ D, p.1 = e.1 := by
        unfold lastVal at hl
        rcases Option.map_eq_some'.mp hl with ⟨p', hfind, -⟩
        refine ⟨p', List.mem_reverse.mp (List.mem_of_find?_eq_some hfind), ?_⟩
        have := List.find?_some hfind
        simpa using this
      have hsat := dictMerge_entry_last D d e he hex
      rw [hl] at hsat
      rw [← Option.some.inj hsat]
  rw [List.map_eq_map_iff.mpr (fun e he => hpt e he), List.map_id']

end RepoGraph

namespace RepoGraph

/-- The concatenated property updates of all statements of `N` whose merge
key matches node `nd`, in batch order. -/
def nodeMatchProps (N : List NodeQuery) (nd : GraphNode) : PyDict :=
  (N.filter (fun q => nodeKeyMatch q nd)).flatMap (fun q => q.props)

/-- Apply to one node every property update of `N` aimed at its key. -/
def nodeUpd (N : List NodeQuery) (nd : GraphNode) : GraphNode :=
  { nd with props := dictMerge nd.props (nodeMatchProps N nd) }

/-- `nodeMatchProps` over a sequence extended by one statement. -/
theorem nodeMatchProps_append_single (N : List NodeQuery) (q : NodeQuery)
    (nd : GraphNode) :
    nodeMatchProps (N ++ [q]) nd =
      nodeMatchProps N nd ++ (if nodeKeyMatch q nd then q.props else []) := by
  unfold nodeMatchProps
  rw [List.filter_append, List.flatMap_append]
  congr 1
  by_cases h : nodeKeyMatch q nd <;> simp [h]

/-- A node-merge statement leaves its own key present. -/
theorem nodeStep_self_key (ns : List GraphNode) (q : NodeQuery) :
    (nodeStep ns q).any (nodeKeyMatch q) = true := by
  unfold nodeStep
  split
  · rename_i h
    rcases List.any_eq_true.mp h with ⟨e, he, hek⟩
    apply List.any_eq_true.mpr
    refine ⟨if nodeKeyMatch q e then { e with props := dictMerge e.props q.props } else e,
      List.mem_map_of_mem _ he, ?_⟩
    rw [if_pos hek]
    exact hek
  · apply List.any_eq_true.mpr
    exact ⟨⟨q.label, q.name, dictMerge [] q.props⟩,
      List.mem_append_right _ (List.mem_singleton.mpr rfl), by simp [nodeKeyMatch]⟩

/-- A node-merge statement preserves every present key. -/
theorem nodeStep_pres_key (ns : List GraphNode) (q0 q : NodeQuery)
    (h : ns.any (nodeKeyMatch q) = true) :
    (nodeStep ns q0).any (nodeKeyMatch q) = true := by
  unfold nodeStep
  rcases List.any_eq_true.mp h with ⟨e, he, hek⟩
  split
  · apply List.any_eq_true.mpr
    refine ⟨if nodeKeyMatch q0 e then { e with props := dictMerge e.props q0.props } else e,
      List.mem_map_of_mem _ he, ?_⟩
    by_cases h0 : nodeKeyMatch q0 e
    · rw [if_pos h0]
      exact hek
    · rw [if_neg h0]
      exact hek
  · exact List.any_eq_true.mpr ⟨e, List.mem_append_left _ he, hek⟩

/-- Every key merged somewhere in the batch is present after the batch. -/
theorem nodeFold_key (N : List NodeQuery) :
    ∀ (ns : List GraphNode), ∀ q ∈ N,
      (List.foldl nodeStep ns N).any (nodeKeyMatch q) = true := by
  induction N using List.reverseRecOn with
  | nil =>
    intro ns q hq
    cases hq
  | append_singleton N' q0 ih =>
    intro ns q hq
    rw [List.foldl_append]
    rcases List.mem_append.mp hq with hin | hin
    · exact nodeStep_pres_key _ _ _ (ih ns q hin)
    · rw [List.mem_singleton.mp hin]
      exact nodeStep_self_key _ _

end RepoGraph

namespace RepoGraph

/-- A batch of node merges whose keys are all already present only updates
nodes in place: it is the pointwise application of the matching property
updates. -/
theorem nodeFold_update_only (N : List NodeQuery) :
    ∀ ns : List GraphNode, (∀ q ∈ N, ns.any (nodeKeyMatch q) = true) →
      List.foldl nodeStep ns N = ns.map (nodeUpd N) := by
  induction N using List.reverseRecOn with
  | nil =>
    intro ns _
    have h1 : ∀ nd ∈ ns, nd = nodeUpd [] nd := fun nd _ => rfl
    calc List.foldl nodeStep ns [] = ns := rfl
    _ = ns.map (nodeUpd []) := by
        rw [show ns.map (nodeUpd []) = ns.map (fun nd => nd) from
          List.map_eq_map_iff.mpr (fun nd hnd => (h1 nd hnd).symm), List.map_id']
  | append_singleton N' q0 ih =>
    intro ns h
    rw [List.foldl_append]
    have hN' := ih ns (fun q hq => h q (List.mem_append_left _ hq))
    rw [hN']
    show nodeStep (ns.map (nodeUpd N')) q0 = ns.map (nodeUpd (N' ++ [q0]))
    have hpres : (ns.map (nodeUpd N')).any (nodeKeyMatch q0) = true := by
      have h0 := h q0 (List.mem_append_right _ (List.mem_singleton.mpr rfl))
      rcases List.any_eq_true.mp h0 with ⟨e, he, hek⟩
      exact List.any_eq_true.mpr ⟨nodeUpd N' e, List.mem_map_of_mem _ he, hek⟩
    unfold nodeStep
    rw [if_pos hpres, List.map_map]
    apply List.map_eq_map_iff.mpr
    intro nd _
    simp only [Function.comp_apply]
    by_cases hm : nodeKeyMatch q0 nd
    · rw [if_pos (show nodeKeyMatch q0 (nodeUpd N' nd) = true from hm)]
      unfold nodeUpd
      rw [nodeMatchProps_append_single, if_pos hm]
      show ({ nd with props := dictMerge (dictMerge nd.props (nodeMatchProps N' nd)) q0.props } : GraphNode) =
        { nd with props := dictMerge nd.props (nodeMatchProps N' nd ++ q0.props) }
      rw [dictMerge_append]
    · rw [if_neg (show ¬ nodeKeyMatch q0 (nodeUpd N' nd) = true from hm)]
      unfold nodeUpd
      rw [nodeMatchProps_append_single, if_neg hm, List.append_nil]

end RepoGraph

namespace RepoGraph

/-- Every node present after a batch of node merges carries, on the keys
the batch updates, exactly the result of replaying its matching updates
over some base properties. -/
theorem nodeFold_entry (N : List NodeQuery) :
    ∀ (ns : List GraphNode) (nd : GraphNode), nd ∈ List.foldl nodeStep ns N →
      ∃ p0 : PyDict, nd.props = dictMerge p0 (nodeMatchProps N nd) := by
  induction N using List.reverseRecOn with
  | nil =>
    intro ns nd _
    exact ⟨nd.props, rfl⟩
  | append_singleton N' q0 ih =>
    intro ns nd hnd
    rw [List.foldl_append] at hnd
    simp only [List.foldl_cons, List.foldl_nil] at hnd
    unfold nodeStep at hnd
    split at hnd
    · rcases List.mem_map.mp hnd with ⟨x, hx, hxe⟩
      by_cases hm : nodeKeyMatch q0 x
      · rw [if_pos hm] at hxe
        rcases ih ns x hx with ⟨p0, hp⟩
        refine ⟨p0, ?_⟩
        subst hxe
        rw [nodeMatchProps_append_single,
          if_pos (show nodeKeyMatch q0 ({ x with props := dictMerge x.props q0.props } : GraphNode) = true from hm),
          dictMerge_append]
        show dictMerge x.props q0.props = _
        rw [hp]
        rfl
      · rw [if_neg hm] at hxe
        subst hxe
        rcases ih ns x hx with ⟨p0, hp⟩
        refine ⟨p0, ?_⟩
        rw [nodeMatchProps_append_single, if_neg hm, List.append_nil]
        exact hp
    · rename_i habs
      rcases List.mem_append.mp hnd with hin | hin
      · rcases ih ns nd hin with ⟨p0, hp⟩
        refine ⟨p0, ?_⟩
        have hm : nodeKeyMatch q0 nd = false := by
          cases hv : nodeKeyMatch q0 nd
          · rfl
          · exact absurd (List.any_eq_true.mpr ⟨nd, hin, hv⟩) habs
        rw [nodeMatchProps_append_single, if_neg (by simp [hm]), List.append_nil]
        exact hp
      · have hnd' := List.mem_singleton.mp hin
        subst hnd'
        refine ⟨[], ?_⟩
        have hF : nodeMatchProps N'
            (⟨q0.label, q0.name, dictMerge [] q0.props⟩ : GraphNode) = [] := by
          unfold nodeMatchProps
          have hfil : (N'.filter (fun q => nodeKeyMatch q
              (⟨q0.label, q0.name, dictMerge [] q0.props⟩ : GraphNode))) = [] := by
            apply List.filter_eq_nil_iff.mpr
            intro q' hq' hmatch
            have hkeys : q0.label = q'.label ∧ q0.name = q'.name := by
              unfold nodeKeyMatch at hmatch
              simpa using hmatch
            have hpt : ∀ x : GraphNode, nodeKeyMatch q' x = nodeKeyMatch q0 x := by
              intro x
              unfold nodeKeyMatch
              rw [← hkeys.1, ← hkeys.2]
            have hb := nodeFold_key N' ns q' hq'
            rcases List.any_eq_true.mp hb with ⟨x, hxB, hxm⟩
            rw [hpt x] at hxm
            exact habs (List.any_eq_true.mpr ⟨x, hxB, hxm⟩)
          rw [hfil]
          rfl
        rw [nodeMatchProps_append_single, hF,
          if_pos (show nodeKeyMatch q0 (⟨q0.label, q0.name, dictMerge [] q0.props⟩ : GraphNode) = true
            from by simp [nodeKeyMatch]),
          List.nil_append]

/-- Replaying the same batch of node merges leaves the node list fixed. -/
theorem nodeFold_idem (ns : List GraphNode) (N : List NodeQuery) :
    List.foldl nodeStep (List.foldl nodeStep ns N) N = List.foldl nodeStep ns N := by
  rw [nodeFold_update_only N _ (fun q hq => nodeFold_key N ns q hq)]
  have hpt : ∀ nd ∈ List.foldl nodeStep ns N, nodeUpd N nd = nd := by
    intro nd hnd
    rcases nodeFold_entry N ns nd hnd with ⟨p0, hp⟩
    unfold nodeUpd
    rw [hp, dictMerge_idem, ← hp]
  rw [List.map_eq_map_iff.mpr (fun nd hnd => hpt nd hnd), List.map_id']

end RepoGraph

namespace RepoGraph

/-- Folding edge merges whose edges are all present changes nothing. -/
theorem foldl_addEdge_no_new {α : Type} (f : α → GraphEdge) (P : List α) :
    ∀ es : List GraphEdge, (∀ p ∈ P, f p ∈ es) →
      P.foldl (fun acc p => addEdge acc (f p)) es = es := by
  induction P with
  | nil => intro es _; rfl
  | cons p r ih =>
    intro es h
    simp only [List.foldl_cons]
    have h1 : addEdge es (f p) = es := by
      unfold addEdge
      rw [if_pos (h p (List.mem_cons_self _ _))]
    rw [h1]
    exact ih es (fun x hx => h x (List.mem_cons_of_mem _ hx))

/-- A relationship merge whose edges are all present changes nothing. -/
theorem relStep_no_new (ns : List GraphNode) (es : List GraphEdge) (q : RelQuery)
    (h : ∀ p ∈ relPairs ns q, edgeOf q p.1 p.2 ∈ es) : relStep ns es q = es :=
  foldl_addEdge_no_new _ _ es h

/-- Edges present before a fold of relationship merges stay present. -/
theorem mem_foldl_relStep_start (ns : List GraphNode) (R : List RelQuery) :
    ∀ (es : List GraphEdge) (x : GraphEdge), x ∈ es → x ∈ R.foldl (relStep ns) es := by
  induction R with
  | nil => intro es x h; exact h
  | cons q r ih =>
    intro es x h
    simp only [List.foldl_cons]
    exact ih _ x (mem_foldl_addEdge_start _ _ _ _ h)

/-- After a fold of relationship merges, every edge any of its statements
matches is present. -/
theorem relFold_pairs_mem (ns : List GraphNode) (R : List RelQuery) :
    ∀ es : List GraphEdge, ∀ q ∈ R, ∀ p ∈ relPairs ns q,
      edgeOf q p.1 p.2 ∈ R.foldl (relStep ns) es := by
  induction R with
  | nil =>
    intro es q hq
    cases hq
  | cons q0 R' ih =>
    intro es q hq p hp
    simp only [List.foldl_cons]
    rcases List.mem_cons.mp hq with rfl | hq'
    · exact mem_foldl_relStep_start ns R' _ _
        (mem_foldl_addEdge_of_mem (fun p => edgeOf q p.1 p.2) _ es p hp)
    · exact ih _ q hq' p hp

/-- A fold of relationship merges whose edges are all present changes
nothing. -/
theorem relFold_no_new (ns : List GraphNode) (R : List RelQuery) :
    ∀ es : List GraphEdge, (∀ q ∈ R, ∀ p ∈ relPairs ns q, edgeOf q p.1 p.2 ∈ es) →
      R.foldl (relStep ns) es = es := by
  induction R with
  | nil => intro es _; rfl
  | cons q0 R' ih =>
    intro es h
    simp only [List.foldl_cons]
    rw [relStep_no_new ns es q0 (h q0 (List.mem_cons_self _ _))]
    exact ih es (fun q hq => h q (List.mem_cons_of_mem _ hq))

/-- Replaying the same fold of relationship merges (over the same node
list) leaves the edge list fixed. -/
theorem relFold_idem (ns : List GraphNode) (es : List GraphEdge) (R : List RelQuery) :
    R.foldl (relStep ns) (R.foldl (relStep ns) es) = R.foldl (relStep ns) es :=
  relFold_no_new ns R _ (relFold_pairs_mem ns R es)

/-- A batch of node-merge statements only touches the node list. -/
theorem batch_nodes (es : List GraphEdge) (qs : List NodeQuery) :
    ∀ ns : List GraphNode,
      executeBatchWrite ⟨ns, es⟩ (qs.map .node) = ⟨List.foldl nodeStep ns qs, es⟩ := by
  induction qs with
  | nil => intro ns; rfl
  | cons q r ih =>
    intro ns
    show executeBatchWrite ⟨nodeStep ns q, es⟩ (r.map .node) = _
    exact ih (nodeStep ns q)

/-- A batch of relationship-merge statements only touches the edge list. -/
theorem batch_rels (ns : List GraphNode) (qs : List RelQuery) :
    ∀ es : List GraphEdge,
      executeBatchWrite ⟨ns, es⟩ (qs.map .rel) = ⟨ns, qs.foldl (relStep ns) es⟩ := by
  induction qs with
  | nil => intro es; rfl
  | cons q r ih =>
    intro es
    show executeBatchWrite ⟨ns, relStep ns es q⟩ (r.map .rel) = _
    exact ih (relStep ns es q)

/-- Replaying an entities-then-relationships batch is the identity on the
graph reached after the first run. -/
theorem batch_idem (g : Graph) (NQ : List NodeQuery) (RQ : List RelQuery) :
    executeBatchWrite (executeBatchWrite g (NQ.map .node ++ RQ.map .rel))
        (NQ.map .node ++ RQ.map .rel) =
      executeBatchWrite g (NQ.map .node ++ RQ.map .rel) := by
  cases g with
  | mk ns es =>
    have hsplit : ∀ g' : Graph,
        executeBatchWrite g' (NQ.map .node ++ RQ.map .rel) =
          executeBatchWrite (executeBatchWrite g' (NQ.map .node)) (RQ.map .rel) := by
      intro g'
      unfold executeBatchWrite
      rw [List.foldl_append]
    rw [hsplit ⟨ns, es⟩, batch_nodes, batch_rels, hsplit, batch_nodes,
      nodeFold_idem, batch_rels, relFold_idem]

end RepoGraph

namespace RepoGraph

/-- C4: `index_file` is idempotent on graph content — running the batch of
one unchanged file a second time (entity merges first, then relationship
merges, as `index_file` orders them) leaves the whole graph state exactly
as after the first run: same nodes with the same labels, names and
properties, same edges, no duplicates. -/
theorem index_file_idempotent :
    ∀ (g : Graph) (fp mp : String) (body : List Stmt),
      indexFile (indexFile g fp mp body) fp mp body = indexFile g fp mp body := by
  intro g fp mp body
  simp only [indexFile, indexFileQueries]
  have hn : ∀ l : List EntityInfo,
      (l.map fun e => CypherWrite.node (mkNodeQuery e)) = (l.map mkNodeQuery).map .node := by
    intro l
    rw [List.map_map]
    rfl
  have hr : ∀ l : List RelationshipInfo,
      (l.map fun r => CypherWrite.rel (mkRelQuery r)) = (l.map mkRelQuery).map .rel := by
    intro l
    rw [List.map_map]
    rfl
  rw [hn, hr]
  exact batch_idem g _ _

end RepoGraph

namespace RepoGraph

/-- C9 (witness): the per-decorator property at a concrete decorator and
docstring. -/
theorem decorated_by_targets_bare_name_witness :
    (addDecorator "m.C" "deco").2.target = "deco" ∧
      (addDecorator "m.C" "deco").2.target ≠ (addDecorator "m.C" "deco").1.name ∧
      (addDocstring "m.C" "doc" 3).2.target = (addDocstring "m.C" "doc" 3).1.name :=
  decorated_by_targets_bare_name "m.C" "deco" "doc" 3

/-- C10 (witness): `from . import x` in module `m` yields the Import entity
with empty module name and no IMPORTS edge, while `from os import x`
yields one. -/
theorem relative_import_no_imports_edge_witness :
    parseImportFrom "m" none [⟨"x"⟩] 1 =
        ([⟨.IMPORT, "m" ++ ".import.", 1,
            [("module_name", .str ""), ("imported_names", .strList ["x"]),
             ("is_from_import", .bool true)]⟩], []) ∧
      (parseImportFrom "m" (some "os") [⟨"x"⟩] 1).2 ≠ [] := by
  constructor
  · exact (relative_import_no_imports_edge "m" [⟨"x"⟩] 1).1
  · exact ((relative_import_no_imports_edge "m" [⟨"x"⟩] 1).2 (some "os")).mpr (by decide)

end RepoGraph
